import Mathlib

/-!
Shallow embedding of the TritiumDB incremental-computation engine
(src/database.ts, src/async.ts, src/reactor.ts) and proofs about the
claims of its specification.

Terms of an expression may be strings, numbers, booleans, function
references (by identity id), CascadingPredicate references, opaque tag
objects, the undefined primitive, DerivativeIds and stored promises.
Predicate bodies are modelled as programs in a small command language
(`Prog`) interpreted against the database state; an environment maps
function ids to program bodies and cascading-predicate ids to setter
bodies.  All interpreter functions are fuel-indexed because user
predicates can recurse through the store without bound; fuel exhaustion
is reported as a distinguished `timeout` outcome that no real
(terminating) execution produces.
-/

/-- A term of an expression, mirroring the dynamic values of the source:
primitives, function references (the identity of a JS function object is
a numeric id), CascadingPredicate objects, opaque tag objects such as the
async internal predicates, the undefined value, DerivativeId records
(structural equality on creatingExpr and uniqueKey, as in the Record
subclass of database.ts), and promise objects returned by async
functions. -/
inductive Term where
  | str (s : String)
  | int (n : Int)
  | bool (b : Bool)
  | fn (id : Nat)
  | casc (id : Nat)
  | tag (id : Nat)
  | undef
  | deriv (creatingExpr : List Term) (uniqueKey : Term)
  | promise (fnId : Nat) (args : List Term)

/-- An expression: a finite ordered sequence of terms (an ImmList in the
source). -/
abbrev Expr := List Term

mutual

/-- Structural equality test on terms (Immutable.js value equality). -/
def Term.beq : Term → Term → Bool
  | .str a, .str b => a == b
  | .int a, .int b => a == b
  | .bool a, .bool b => a == b
  | .fn a, .fn b => a == b
  | .casc a, .casc b => a == b
  | .tag a, .tag b => a == b
  | .undef, .undef => true
  | .deriv ce k, .deriv ce' k' => Term.beqList ce ce' && Term.beq k k'
  | .promise f a, .promise f' a' => f == f' && Term.beqList a a'
  | _, _ => false

/-- Structural equality test on term lists. -/
def Term.beqList : List Term → List Term → Bool
  | [], [] => true
  | a :: as, b :: bs => Term.beq a b && Term.beqList as bs
  | _, _ => false

end

mutual

theorem Term.beq_iff : (a b : Term) → (Term.beq a b = true ↔ a = b)
  | a, b => by
    cases a <;> cases b <;>
      first
        | (rename_i ce k ce' k'
           exact (by rw [Term.beq, Bool.and_eq_true, Term.beq_iff k k',
                   Term.beqList_iff ce ce']; simp))
        | (rename_i f args f' args'
           exact (by rw [Term.beq, Bool.and_eq_true, Term.beqList_iff args args']; simp))
        | simp [Term.beq]

theorem Term.beqList_iff : (a b : List Term) → (Term.beqList a b = true ↔ a = b)
  | [], [] => by simp [Term.beqList]
  | a :: as, b :: bs => by
      rw [Term.beqList, Bool.and_eq_true, Term.beq_iff a b, Term.beqList_iff as bs]; simp
  | [], _ :: _ => by simp [Term.beqList]
  | _ :: _, [] => by simp [Term.beqList]

end

instance : DecidableEq Term := fun a b => decidable_of_iff _ (Term.beq_iff a b)

/-- Thrown values, mirroring what the source can throw: arbitrary user
values thrown from predicates, AsyncCallIncompleteError, the two misuse
Errors of getDerivativeId and setDerivative, and the TypeError raised by
a member access on undefined. -/
inductive Err where
  | userThrow (v : Term)
  | asyncIncomplete (e : List Term)
  | getDerivativeIdOutsideComputation
  | setDerivativeOutsideComputation
  | typeError
deriving DecidableEq

/-- Outcome of a computation: a returned value, a thrown value, or fuel
exhaustion (a modelling artifact; no terminating source execution
produces it). -/
inductive Res (α : Type) where
  | ok (v : α)
  | thrown (e : Err)
  | timeout
deriving DecidableEq

abbrev Outcome := Res Term

/-! ### Persistent maps and sets

Immutable.js maps and sets are modelled as association lists and
duplicate-free lists; only membership and lookup are observable. -/

/-- Set insertion (ImmSet.add): no-op when already present. -/
def sAdd {α : Type} [DecidableEq α] (x : α) (s : List α) : List α :=
  if x ∈ s then s else x :: s

/-- Set removal (ImmSet.delete / JS Set.delete). -/
def sDel {α : Type} [DecidableEq α] (x : α) (s : List α) : List α :=
  s.filter (fun y => decide (y ≠ x))

/-- Set union (ImmSet.union). -/
def sUnion {α : Type} [DecidableEq α] (s t : List α) : List α :=
  t.foldl (fun acc x => sAdd x acc) s

/-- Map lookup (ImmMap.get, returning undefined as none). -/
def alGet {κ ν : Type} [DecidableEq κ] : List (κ × ν) → κ → Option ν
  | [], _ => none
  | (k', v) :: rest, k => if k = k' then some v else alGet rest k

/-- Map insertion or replacement (ImmMap.set). -/
def alSet {κ ν : Type} [DecidableEq κ] : List (κ × ν) → κ → ν → List (κ × ν)
  | [], k, v => [(k, v)]
  | (k', v') :: rest, k, v =>
      if k = k' then (k, v) :: rest else (k', v') :: alSet rest k v

/-- Map deletion (ImmMap.delete). -/
def alDelete {κ ν : Type} [DecidableEq κ] (m : List (κ × ν)) (k : κ) : List (κ × ν) :=
  m.filter (fun kv => decide (kv.1 ≠ k))

/-- Lookup of a set-valued entry, defaulting to the empty set: the
`(contributorExprs || ImmSet())` idiom of the source. -/
def lookupSet {κ ν : Type} [DecidableEq κ] (m : List (κ × List ν)) (k : κ) : List ν :=
  (alGet m k).getD []

theorem sAdd_mem {α : Type} [DecidableEq α] {x y : α} {s : List α} :
    y ∈ sAdd x s ↔ y = x ∨ y ∈ s := by
  unfold sAdd
  split <;> rename_i h
  · constructor
    · exact fun hy => Or.inr hy
    · rintro (rfl | hy) <;> assumption
  · simp [List.mem_cons]

theorem sDel_mem {α : Type} [DecidableEq α] {x y : α} {s : List α} :
    y ∈ sDel x s ↔ y ∈ s ∧ y ≠ x := by
  unfold sDel
  simp [List.mem_filter]

theorem sUnion_mem {α : Type} [DecidableEq α] {x : α} {s t : List α} :
    x ∈ sUnion s t ↔ x ∈ s ∨ x ∈ t := by
  unfold sUnion
  induction t generalizing s with
  | nil => simp
  | cons a as ih =>
      simp only [List.foldl_cons, ih, sAdd_mem, List.mem_cons]
      tauto

theorem alGet_alSet {κ ν : Type} [DecidableEq κ] (m : List (κ × ν)) (k k' : κ) (v : ν) :
    alGet (alSet m k v) k' = if k' = k then some v else alGet m k' := by
  induction m with
  | nil => simp [alSet, alGet]
  | cons kv rest ih =>
      obtain ⟨k₀, v₀⟩ := kv
      by_cases h : k = k₀
      · subst h
        by_cases h' : k' = k <;> simp [alSet, alGet, h']
      · by_cases h' : k' = k₀ <;> by_cases h'' : k' = k <;>
          simp_all [alSet, alGet]

theorem alGet_alDelete {κ ν : Type} [DecidableEq κ] (m : List (κ × ν)) (k k' : κ) :
    alGet (alDelete m k) k' = if k' = k then none else alGet m k' := by
  induction m with
  | nil => simp [alDelete, alGet]
  | cons kv rest ih =>
      obtain ⟨k₀, v₀⟩ := kv
      by_cases h : k₀ = k
      · subst h
        by_cases h' : k' = k₀ <;> simp_all [alDelete, alGet, List.filter_cons]
      · by_cases h' : k' = k₀ <;> by_cases h'' : k' = k <;>
          simp_all [alDelete, alGet, List.filter_cons]

theorem lookupSet_alSet {κ ν : Type} [DecidableEq κ] (m : List (κ × List ν)) (k k' : κ)
    (v : List ν) :
    lookupSet (alSet m k v) k' = if k' = k then v else lookupSet m k' := by
  unfold lookupSet
  rw [alGet_alSet]
  split <;> simp

theorem lookupSet_alDelete {κ ν : Type} [DecidableEq κ] (m : List (κ × List ν)) (k k' : κ) :
    lookupSet (alDelete m k) k' = if k' = k then [] else lookupSet m k' := by
  unfold lookupSet
  rw [alGet_alDelete]
  split <;> simp

/-! ### Database state

Mirrors the fields of class Database in database.ts.  `calls` is a ghost
log recording each invocation of a user predicate (function id and
argument list); it changes only at the single call site of a predicate
body and is observable in no other way. -/

structure DB where
  cascadingPredicateAffectedExprsDuringSet : Option (List Expr)
  currentlyComputingExprs : List Expr
  currentDeepestComputingExpr : Option Expr
  exprToCachedResult : List (Expr × Term)
  exprToContributorExprs : List (Expr × List Expr)
  exprToDependentExprs : List (Expr × List Expr)
  calls : List (Nat × List Term)
deriving DecidableEq

/-- A freshly constructed Database (new Database()). -/
def emptyDB : DB :=
  { cascadingPredicateAffectedExprsDuringSet := none
    currentlyComputingExprs := []
    currentDeepestComputingExpr := none
    exprToCachedResult := []
    exprToContributorExprs := []
    exprToDependentExprs := []
    calls := [] }

/-- Database.addDependency: record the contributor in the dependent's
contributor set and the dependent in the contributor's dependent set. -/
def addDependency (σ : DB) (dependentExpr contributorExpr : Expr) : DB :=
  { σ with
    exprToContributorExprs := alSet σ.exprToContributorExprs dependentExpr
      (sAdd contributorExpr (lookupSet σ.exprToContributorExprs dependentExpr)),
    exprToDependentExprs := alSet σ.exprToDependentExprs contributorExpr
      (sAdd dependentExpr (lookupSet σ.exprToDependentExprs contributorExpr)) }

/-- The forEach loop of Database.clearExprDependencies: remove the
expression from each contributor's dependent set.  When a contributor
has no dependents entry, the source calls .delete on undefined and a
TypeError propagates. -/
def clearExprDependenciesLoop (expr : Expr) : List Expr → DB → Res Unit × DB
  | [], σ => (.ok (), σ)
  | contributorKey :: rest, σ =>
      match alGet σ.exprToDependentExprs contributorKey with
      | none => (.thrown .typeError, σ)
      | some dependentKeys =>
          clearExprDependenciesLoop expr rest
            { σ with exprToDependentExprs :=
                alSet σ.exprToDependentExprs contributorKey (sDel expr dependentKeys) }

/-- Database.clearExprDependencies. -/
def clearExprDependencies (σ : DB) (expr : Expr) : Res Unit × DB :=
  let contributorKeys := alGet σ.exprToContributorExprs expr
  let σ₁ := { σ with exprToContributorExprs := alDelete σ.exprToContributorExprs expr }
  match contributorKeys with
  | none => (.ok (), σ₁)
  | some cs => clearExprDependenciesLoop expr cs σ₁

/-- Database.invalidateSingleExprResult. -/
def invalidateSingleExprResult (σ : DB) (expr : Expr) : Res Unit × DB :=
  clearExprDependencies
    { σ with exprToCachedResult := alDelete σ.exprToCachedResult expr } expr

/-- The search loop of Database.getAllDependentExprsIncludingSeed.  The
source uses a JS array as a stack (push/pop at the end); the fuel bounds
the number of loop iterations and is chosen large enough that it can
never be exhausted (each pop is matched by a previous push, and pushes
of fresh expressions are bounded by the total size of the dependents
index). -/
def bfsDiscover (σ : DB) : Nat → List Expr → List Expr → List Expr
  | 0, discoveredExprs, _ => discoveredExprs
  | fuel+1, discoveredExprs, exprVisitQueue =>
      match exprVisitQueue with
      | [] => discoveredExprs
      | currentExpr :: restQueue =>
          let currentDependentExprs := lookupSet σ.exprToDependentExprs currentExpr
          let step := currentDependentExprs.foldl
            (fun (acc : List Expr × List Expr) dependentExpr =>
              if dependentExpr ∈ acc.1 then acc
              else (dependentExpr :: acc.1, dependentExpr :: acc.2))
            (discoveredExprs, restQueue)
          bfsDiscover σ fuel step.1 step.2

/-- An upper bound on the iterations of the dependent-search loop. -/
def bfsFuel (σ : DB) : Nat :=
  1 + (σ.exprToDependentExprs.map (fun p => p.2.length)).sum
      + (σ.exprToDependentExprs.map (fun p => p.2.length)).sum

/-- Database.getAllDependentExprsIncludingSeed. -/
def getAllDependentExprsIncludingSeed (σ : DB) (expr : Expr) : List Expr :=
  bfsDiscover σ (bfsFuel σ) [expr] [expr]

/-- The forEach loop over affected expressions in
Database.setResultGetAffectedExprs. -/
def invalidateAffectedExprs : List Expr → DB → Res Unit × DB
  | [], σ => (.ok (), σ)
  | e :: rest, σ =>
      match invalidateSingleExprResult σ e with
      | (.ok _, σ') => invalidateAffectedExprs rest σ'
      | (.thrown err, σ') => (.thrown err, σ')
      | (.timeout, σ') => (.timeout, σ')

/-! ### Predicate programs

Bodies of user predicates and of CascadingPredicate setters are
programs that can return, throw, spy or get expressions, obtain
DerivativeIds and set derivative expressions, with the continuation
receiving the intermediate value. -/

inductive Prog where
  | ret (v : Term)
  | throwV (v : Term)
  | throwAsyncIncomplete (e : List Term)
  | spyThen (e : List Term) (k : Term → Prog)
  | getThen (e : List Term) (k : Term → Prog)
  | getDerivativeIdThen (uniqueKey : Term) (k : Term → Prog)
  | setDerivativeThen (e : List Term) (v : Term) (k : Prog)

/-- The environment binding function ids to predicate bodies (applied to
the argument terms of the expression) and cascading-predicate ids to
setter bodies (applied to the written expression and result). -/
structure Env where
  fns : Nat → List Term → Prog
  cascs : Nat → Expr → Term → Prog

mutual

/-- Database.getResultFromImmExpr. -/
def getResultFromImmExpr (env : Env) : Nat → DB → Expr → Outcome × DB
  | 0, σ, _ => (.timeout, σ)
  | fuel+1, σ, expr =>
      match alGet σ.exprToCachedResult expr with
      | some v => (.ok v, σ)
      | none =>
        match expr.head? with
        | some (.fn _) => updateExprCacheAndGetResult env fuel σ expr
        | _ =>
          match derivativeTermScan env fuel σ expr with
          | (.ok _, σ') => (.ok ((alGet σ'.exprToCachedResult expr).getD .undef), σ')
          | (.thrown e, σ') => (.thrown e, σ')
          | (.timeout, σ') => (.timeout, σ')

/-- The for-loop of getResultFromImmExpr over the terms of the
expression: recompute the creating expression of any DerivativeId term
whose creating expression is not cached. -/
def derivativeTermScan (env : Env) : Nat → DB → List Term → Res Unit × DB
  | 0, σ, _ => (.timeout, σ)
  | _+1, σ, [] => (.ok (), σ)
  | fuel+1, σ, term :: rest =>
      match term with
      | .deriv creatingExpr _ =>
          if (alGet σ.exprToCachedResult creatingExpr).isSome then
            derivativeTermScan env fuel σ rest
          else
            match getResultFromImmExpr env fuel σ creatingExpr with
            | (.ok _, σ') => derivativeTermScan env fuel σ' rest
            | (.thrown e, σ') => (.thrown e, σ')
            | (.timeout, σ') => (.timeout, σ')
      | _ => derivativeTermScan env fuel σ rest

/-- Database.updateExprCacheAndGetResult. -/
def updateExprCacheAndGetResult (env : Env) : Nat → DB → Expr → Outcome × DB
  | 0, σ, _ => (.timeout, σ)
  | fuel+1, σ, expr =>
      if expr ∈ σ.currentlyComputingExprs then (.ok .undef, σ)
      else
        let prevCallingKey := σ.currentDeepestComputingExpr
        let σ₁ := { σ with currentDeepestComputingExpr := some expr,
                           currentlyComputingExprs := sAdd expr σ.currentlyComputingExprs }
        match expr.head? with
        | some (.fn f) =>
            let args := expr.tail
            let σ₂ := { σ₁ with calls := σ₁.calls ++ [(f, args)] }
            match runProg env fuel (env.fns f args) σ₂ with
            | (.ok result, σ₃) =>
                let σ₄ := { σ₃ with
                  currentlyComputingExprs := sDel expr σ₃.currentlyComputingExprs,
                  currentDeepestComputingExpr := prevCallingKey,
                  exprToCachedResult := alSet σ₃.exprToCachedResult expr result }
                (.ok result, σ₄)
            | (.thrown e, σ₃) => (.thrown e, σ₃)
            | (.timeout, σ₃) => (.timeout, σ₃)
        | _ => (.thrown .typeError, σ₁)

/-- Database.spyResult. -/
def spyResult (env : Env) : Nat → DB → Expr → Outcome × DB
  | 0, σ, _ => (.timeout, σ)
  | fuel+1, σ, expr =>
      let σ₁ := match σ.currentDeepestComputingExpr with
        | some d => addDependency σ d expr
        | none => σ
      getResultFromImmExpr env fuel σ₁ expr

/-- Database.setDerivative. -/
def setDerivative (env : Env) : Nat → DB → Expr → Term → Res Unit × DB
  | 0, σ, _, _ => (.timeout, σ)
  | fuel+1, σ, expr, result =>
      match σ.currentDeepestComputingExpr with
      | none => (.thrown .setDerivativeOutsideComputation, σ)
      | some _ =>
          match setResultGetAffectedExprs env fuel σ expr result with
          | (.ok _, σ') =>
              match σ'.currentDeepestComputingExpr with
              | some d => (.ok (), addDependency σ' expr d)
              | none => (.ok (), σ')
          | (.thrown e, σ') => (.thrown e, σ')
          | (.timeout, σ') => (.timeout, σ')

/-- Database.setResultGetAffectedExprs. -/
def setResultGetAffectedExprs (env : Env) : Nat → DB → Expr → Term → Res (List Expr) × DB
  | 0, σ, _, _ => (.timeout, σ)
  | fuel+1, σ, immExpr, result =>
      let affectedExprs := getAllDependentExprsIncludingSeed σ immExpr
      match invalidateAffectedExprs affectedExprs σ with
      | (.thrown e, σ₁) => (.thrown e, σ₁)
      | (.timeout, σ₁) => (.timeout, σ₁)
      | (.ok _, σ₁) =>
        let σ₂ := { σ₁ with exprToCachedResult := alSet σ₁.exprToCachedResult immExpr result }
        match immExpr.head? with
        | some (.casc c) =>
            let alreadyInCascadingPredicateSet :=
              σ₂.cascadingPredicateAffectedExprsDuringSet.isSome
            let prevCallingExpr := σ₂.currentDeepestComputingExpr
            let σ₃ := { σ₂ with currentDeepestComputingExpr := some immExpr }
            let startAcc : List Expr :=
              if alreadyInCascadingPredicateSet then
                sAdd immExpr (σ₃.cascadingPredicateAffectedExprsDuringSet.getD [])
              else []
            let σ₄ := { σ₃ with cascadingPredicateAffectedExprsDuringSet := some startAcc }
            match runProg env fuel (env.cascs c immExpr result) σ₄ with
            | (.ok _, σ₅) =>
                if alreadyInCascadingPredicateSet then
                  (.ok affectedExprs,
                   { σ₅ with currentDeepestComputingExpr := prevCallingExpr })
                else
                  (.ok (sUnion affectedExprs
                      (σ₅.cascadingPredicateAffectedExprsDuringSet.getD [])),
                   { σ₅ with cascadingPredicateAffectedExprsDuringSet := none,
                             currentDeepestComputingExpr := prevCallingExpr })
            | (.thrown e, σ₅) => (.thrown e, σ₅)
            | (.timeout, σ₅) => (.timeout, σ₅)
        | _ => (.ok affectedExprs, σ₂)

/-- The interpreter for predicate and setter bodies. -/
def runProg (env : Env) : Nat → Prog → DB → Outcome × DB
  | 0, _, σ => (.timeout, σ)
  | fuel+1, prog, σ =>
      match prog with
      | .ret v => (.ok v, σ)
      | .throwV v => (.thrown (.userThrow v), σ)
      | .throwAsyncIncomplete e => (.thrown (.asyncIncomplete e), σ)
      | .spyThen e k =>
          match spyResult env fuel σ e with
          | (.ok v, σ') => runProg env fuel (k v) σ'
          | (.thrown err, σ') => (.thrown err, σ')
          | (.timeout, σ') => (.timeout, σ')
      | .getThen e k =>
          match getResultFromImmExpr env fuel σ e with
          | (.ok v, σ') => runProg env fuel (k v) σ'
          | (.thrown err, σ') => (.thrown err, σ')
          | (.timeout, σ') => (.timeout, σ')
      | .getDerivativeIdThen uniqueKey k =>
          match σ.currentDeepestComputingExpr with
          | none => (.thrown .getDerivativeIdOutsideComputation, σ)
          | some ce => runProg env fuel (k (.deriv ce uniqueKey)) σ
      | .setDerivativeThen e v k =>
          match setDerivative env fuel σ e v with
          | (.ok _, σ') => runProg env fuel k σ'
          | (.thrown err, σ') => (.thrown err, σ')
          | (.timeout, σ') => (.timeout, σ')

end

/-- Database.getResult: the public read entry point (input normalization
to the canonical immutable form is the identity in this model). -/
def getResult (env : Env) (fuel : Nat) (σ : DB) (expr : Expr) : Outcome × DB :=
  getResultFromImmExpr env fuel σ expr

/-- Database.withGetAffectedRels: construct a new Database sharing the
three persistent maps (fresh per-computation state, as the constructor
initializes it) and apply setResultGetAffectedExprs to it.  The ghost
call log is carried over. -/
def withGetAffectedRels (env : Env) (fuel : Nat) (σ : DB) (expr : Expr) (result : Term) :
    Res (List Expr) × DB :=
  let newDb : DB :=
    { cascadingPredicateAffectedExprsDuringSet := none
      currentlyComputingExprs := []
      currentDeepestComputingExpr := none
      exprToCachedResult := σ.exprToCachedResult
      exprToContributorExprs := σ.exprToContributorExprs
      exprToDependentExprs := σ.exprToDependentExprs
      calls := σ.calls }
  setResultGetAffectedExprs env fuel newDb expr result

/-- Database.with. -/
def withResult (env : Env) (fuel : Nat) (σ : DB) (expr : Expr) (result : Term) : DB :=
  (withGetAffectedRels env fuel σ expr result).2

/-- Database.withModifiedGetAffectedRels: the new result is the modifier
applied to getResult on the receiver (which may evaluate and therefore
mutate the receiver before the new Database is built from its maps). -/
def withModifiedGetAffectedRels (env : Env) (fuel : Nat) (σ : DB) (expr : Expr)
    (modifier : Term → Term) : Res (List Expr) × DB :=
  match getResultFromImmExpr env fuel σ expr with
  | (.ok v, σ') => withGetAffectedRels env fuel σ' expr (modifier v)
  | (.thrown e, σ') => (.thrown e, σ')
  | (.timeout, σ') => (.timeout, σ')

/-! ### Async bridge (async.ts) -/

def ASYNC_CALL_STATUS_INTERNAL_PRED : Term := .tag 0
def ASYNC_CALL_RESULT_INTERNAL_PRED : Term := .tag 1
def ASYNC_CALL_PROMISE_INTERNAL_PRED : Term := .tag 2

def AsyncCallStatus.Executing : Term := .str "Executing"
def AsyncCallStatus.Complete : Term := .str "Complete"

/-- async.ts resultIsReady: spy the inner expression inside try; an
AsyncCallIncompleteError caught by the instanceof test returns false;
any other outcome, a successful return or another caught error, falls
through to return true. -/
def resultIsReady (env : Env) (fuel : Nat) (σ : DB) (expr : Expr) : Outcome × DB :=
  match spyResult env fuel σ expr with
  | (.ok _, σ') => (.ok (.bool true), σ')
  | (.thrown (.asyncIncomplete _), σ') => (.ok (.bool false), σ')
  | (.thrown _, σ') => (.ok (.bool true), σ')
  | (.timeout, σ') => (.timeout, σ')

/-! ### Reactor (reactor.ts)

Subscriber callbacks are opaque: they are identified by numeric ids and
their invocation is recorded in the ghost log `firedCallbacks`.
Likewise `asyncCalls` records each direct invocation of an async
function by ensureAsyncRun. -/

structure Reactor where
  db : DB
  subscribers : List (Expr × List Nat)
  invalidatedExprsPendingSubscriberNotifications : List Expr
  asyncCalls : List (Nat × List Term)
  firedCallbacks : List Nat
deriving DecidableEq

/-- new Reactor() with a fresh Database. -/
def emptyReactor : Reactor :=
  { db := emptyDB
    subscribers := []
    invalidatedExprsPendingSubscriberNotifications := []
    asyncCalls := []
    firedCallbacks := [] }

/-- Reactor.applyChangeFunc: install the new database and union the
affected expressions into the pending-notification set.  When the
change function throws, the exception propagates before either
assignment happens. -/
def applyChangeFunc (r : Reactor) (change : Res (List Expr) × DB) : Res Unit × Reactor :=
  match change with
  | (.ok affectedExprs, newDb) =>
      let newPending :=
        affectedExprs.foldl (fun pending e => sAdd e pending)
          r.invalidatedExprsPendingSubscriberNotifications
      (.ok (),
       { r with db := newDb,
                invalidatedExprsPendingSubscriberNotifications := newPending })
  | (.thrown e, _) => (.thrown e, r)
  | (.timeout, _) => (.timeout, r)

/-- Reactor.set. -/
def Reactor.set (env : Env) (fuel : Nat) (r : Reactor) (expr : Expr) (result : Term) :
    Res Unit × Reactor :=
  applyChangeFunc r (withGetAffectedRels env fuel r.db expr result)

/-- Reactor.modify. -/
def Reactor.modify (env : Env) (fuel : Nat) (r : Reactor) (expr : Expr)
    (modifier : Term → Term) : Res Unit × Reactor :=
  applyChangeFunc r (withModifiedGetAffectedRels env fuel r.db expr modifier)

/-- Reactor.subscribe: call getResult once to seed dependency edges (an
exception from it propagates), then add the callback to the bucket for
the expression, creating the bucket when absent. -/
def Reactor.subscribe (env : Env) (fuel : Nat) (r : Reactor) (expr : Expr) (callback : Nat) :
    Res Unit × Reactor :=
  match getResultFromImmExpr env fuel r.db expr with
  | (.ok _, db') =>
      let r₁ := { r with db := db' }
      let exprCallbacks := (alGet r₁.subscribers expr).getD []
      (.ok (),
       { r₁ with subscribers := alSet r₁.subscribers expr (sAdd callback exprCallbacks) })
  | (.thrown e, db') => (.thrown e, { r with db := db' })
  | (.timeout, db') => (.timeout, { r with db := db' })

/-- The unsubscribe closure returned by Reactor.subscribe, applied to
the captured expression and callback.  When the bucket holds exactly one
callback the whole map entry is deleted; otherwise the callback is
removed from the bucket.  When the bucket is absent, reading .size on
undefined raises a TypeError. -/
def Reactor.unsubscribe (r : Reactor) (expr : Expr) (callback : Nat) : Res Unit × Reactor :=
  match alGet r.subscribers expr with
  | none => (.thrown .typeError, r)
  | some exprCallbacks =>
      if exprCallbacks.length = 1 then
        (.ok (), { r with subscribers := alDelete r.subscribers expr })
      else
        (.ok (), { r with subscribers := alSet r.subscribers expr (sDel callback exprCallbacks) })

/-- The iteration of Reactor.flushNotifications: for each pending
expression, invoke every callback in its bucket (recorded in the ghost
log). -/
def flushLoop (subscribers : List (Expr × List Nat)) :
    List Expr → List Nat → List Nat
  | [], log => log
  | e :: rest, log => flushLoop subscribers rest (log ++ (alGet subscribers e).getD [])

/-- Reactor.flushNotifications. -/
def Reactor.flushNotifications (r : Reactor) : Reactor :=
  { r with
    firedCallbacks :=
      flushLoop r.subscribers r.invalidatedExprsPendingSubscriberNotifications r.firedCallbacks,
    invalidatedExprsPendingSubscriberNotifications := [] }

/-- Reactor.ensureAsyncRun (reactor.ts): when the status cell for the
call is undefined, set it to Executing, invoke the async function (ghost
logged; the returned future is the promise value for this function and
argument list), store the future under the promise cell and return it;
otherwise return the stored future.  The resolution continuation is
modelled separately by ensureAsyncRunResolution. -/
def Reactor.ensureAsyncRun (env : Env) (fuel : Nat) (r : Reactor) (func : Nat)
    (args : List Term) : Res Term × Reactor :=
  let statusExpr : Expr := ASYNC_CALL_STATUS_INTERNAL_PRED :: Term.fn func :: args
  let promiseExpr : Expr := ASYNC_CALL_PROMISE_INTERNAL_PRED :: Term.fn func :: args
  match getResultFromImmExpr env fuel r.db statusExpr with
  | (.ok currStatus, db₁) =>
      let r₁ := { r with db := db₁ }
      if currStatus = Term.undef then
        match Reactor.set env fuel r₁ statusExpr AsyncCallStatus.Executing with
        | (.ok _, r₂) =>
            let promiseVal := Term.promise func args
            let r₃ := { r₂ with asyncCalls := r₂.asyncCalls ++ [(func, args)] }
            match Reactor.set env fuel r₃ promiseExpr promiseVal with
            | (.ok _, r₄) => (.ok promiseVal, r₄)
            | (.thrown e, r₄) => (.thrown e, r₄)
            | (.timeout, r₄) => (.timeout, r₄)
        | (.thrown e, r₂) => (.thrown e, r₂)
        | (.timeout, r₂) => (.timeout, r₂)
      else
        match getResultFromImmExpr env fuel r₁.db promiseExpr with
        | (.ok storedPromise, db₂) => (.ok storedPromise, { r₁ with db := db₂ })
        | (.thrown e, db₂) => (.thrown e, { r₁ with db := db₂ })
        | (.timeout, db₂) => (.timeout, { r₁ with db := db₂ })
  | (.thrown e, db₁) => (.thrown e, { r with db := db₁ })
  | (.timeout, db₁) => (.timeout, { r with db := db₁ })

/-- The continuation attached by ensureAsyncRun to the returned future:
on resolution, set the result cell, then the Complete status, then flush
notifications. -/
def Reactor.ensureAsyncRunResolution (env : Env) (fuel : Nat) (r : Reactor) (func : Nat)
    (args : List Term) (retVal : Term) : Res Unit × Reactor :=
  let resultExpr : Expr := ASYNC_CALL_RESULT_INTERNAL_PRED :: Term.fn func :: args
  let statusExpr : Expr := ASYNC_CALL_STATUS_INTERNAL_PRED :: Term.fn func :: args
  match Reactor.set env fuel r resultExpr retVal with
  | (.ok _, r₁) =>
      match Reactor.set env fuel r₁ statusExpr AsyncCallStatus.Complete with
      | (.ok _, r₂) => (.ok (), Reactor.flushNotifications r₂)
      | (.thrown e, r₂) => (.thrown e, r₂)
      | (.timeout, r₂) => (.timeout, r₂)
  | (.thrown e, r₁) => (.thrown e, r₁)
  | (.timeout, r₁) => (.timeout, r₁)

/-! ### Operation sequences and reachability -/

/-- The externally issued operations of the claims: get, spy, with,
withModified and setDerivative. -/
inductive Op where
  | getOp (e : Expr)
  | spyOp (e : Expr)
  | withOp (e : Expr) (v : Term)
  | withModifiedOp (e : Expr) (modifier : Term → Term)
  | setDerivativeOp (e : Expr) (v : Term)

/-- The database state after externally issuing one operation (for the
with-operations, the sequence continues on the returned new instance). -/
def applyOp (env : Env) (fuel : Nat) (σ : DB) : Op → DB
  | .getOp e => (getResult env fuel σ e).2
  | .spyOp e => (spyResult env fuel σ e).2
  | .withOp e v => (withGetAffectedRels env fuel σ e v).2
  | .withModifiedOp e m => (withModifiedGetAffectedRels env fuel σ e m).2
  | .setDerivativeOp e v => (setDerivative env fuel σ e v).2

/-- States reachable from a fresh Database by any sequence of external
operations. -/
inductive Reachable (env : Env) : DB → Prop where
  | init : Reachable env emptyDB
  | step {σ : DB} (op : Op) (fuel : Nat) :
      Reachable env σ → Reachable env (applyOp env fuel σ op)

/-- Invariant I1 of the specification: the contributors and dependents
indices are exact inverses. -/
def InvIdx (σ : DB) : Prop :=
  ∀ e f : Expr,
    f ∈ lookupSet σ.exprToDependentExprs e ↔ e ∈ lookupSet σ.exprToContributorExprs f

/-! ### Concrete scenario environment

A single environment supplying the concrete predicates used by the
witnesses and counterexamples:
function 0 is the self-spying predicate rec,
function 1 throws the string boom,
function 2 spies the base expression and returns the spied value,
functions 3 and 4 are creators of derivative expressions (function 3
writes the two-derivative expression c6expr, function 4 writes the empty
expression, on which function 3's cached result depends in the seeded
state c6start),
function 5 raises AsyncCallIncompleteError,
cascading predicate 0 is the PARENT setter writing CHILD of the result. -/

def c6expr : Expr :=
  [Term.deriv [Term.fn 3] (Term.int 1), Term.deriv [Term.fn 4] (Term.int 2)]

def demoEnv : Env where
  fns := fun i _ =>
    match i with
    | 0 => Prog.spyThen [Term.fn 0] Prog.ret
    | 1 => Prog.throwV (Term.str "boom")
    | 2 => Prog.spyThen [Term.str "base"] Prog.ret
    | 3 => Prog.setDerivativeThen c6expr (Term.int 7) (Prog.ret Term.undef)
    | 4 => Prog.setDerivativeThen [] (Term.int 5) (Prog.ret Term.undef)
    | 5 => Prog.throwAsyncIncomplete [Term.fn 9]
    | _ => Prog.ret Term.undef
  cascs := fun i expr result =>
    match i with
    | 0 => Prog.setDerivativeThen [Term.str "CHILD", result] (expr.getD 1 Term.undef)
             (Prog.ret Term.undef)
    | _ => Prog.ret Term.undef

/-- A database state in which function 3's result is cached and recorded
as depending on the empty expression (as after evaluating a version of
function 3 that spied the empty expression). -/
def c6start : DB :=
  { cascadingPredicateAffectedExprsDuringSet := none
    currentlyComputingExprs := []
    currentDeepestComputingExpr := none
    exprToCachedResult := [([Term.fn 3], Term.int 0)]
    exprToContributorExprs := [([Term.fn 3], [[]])]
    exprToDependentExprs := [([], [[Term.fn 3]])]
    calls := [] }

/-- The database state produced by the first get of c6expr on c6start:
evaluating function 4 wrote the empty expression, invalidating function
3's cached result, so c6expr itself ended up uncached. -/
def c6mid : DB :=
  { cascadingPredicateAffectedExprsDuringSet := none
    currentlyComputingExprs := []
    currentDeepestComputingExpr := none
    exprToCachedResult := [([], Term.int 5), ([Term.fn 4], Term.undef)]
    exprToContributorExprs := [([], [[Term.fn 4]])]
    exprToDependentExprs := [([], []), ([Term.fn 4], [[]])]
    calls := [(4, [])] }

/-! ### Preservation lemmas for the inverse-index invariant -/

/-- The per-computation fields and the call log are untouched by the
index-maintenance helpers. -/
def auxFieldsEq (σ σ' : DB) : Prop :=
  σ'.cascadingPredicateAffectedExprsDuringSet = σ.cascadingPredicateAffectedExprsDuringSet ∧
  σ'.currentlyComputingExprs = σ.currentlyComputingExprs ∧
  σ'.currentDeepestComputingExpr = σ.currentDeepestComputingExpr ∧
  σ'.calls = σ.calls

theorem invIdx_addDependency {σ : DB} (h : InvIdx σ) (d c : Expr) :
    InvIdx (addDependency σ d c) := by
  intro e f
  simp only [addDependency, lookupSet_alSet]
  by_cases he : e = c <;> by_cases hf : f = d <;>
    simp [he, hf, sAdd_mem, h e f, h c f, h e d, h c d]

theorem clearExprDependenciesLoop_spec (e : Expr) (cs : List Expr) (σ : DB)
    (hs : ∀ c ∈ cs, (alGet σ.exprToDependentExprs c).isSome = true) :
    ∃ σ', clearExprDependenciesLoop e cs σ = (.ok (), σ') ∧
      σ'.exprToContributorExprs = σ.exprToContributorExprs ∧
      σ'.exprToCachedResult = σ.exprToCachedResult ∧
      auxFieldsEq σ σ' ∧
      (∀ x y, y ∈ lookupSet σ'.exprToDependentExprs x ↔
          (y ∈ lookupSet σ.exprToDependentExprs x ∧ ¬(x ∈ cs ∧ y = e))) := by
  induction cs generalizing σ with
  | nil =>
      refine ⟨σ, rfl, rfl, rfl, ⟨rfl, rfl, rfl, rfl⟩, ?_⟩
      simp
  | cons c rest ih =>
      have hc := hs c (List.mem_cons_self c rest)
      obtain ⟨s, hsome⟩ : ∃ s, alGet σ.exprToDependentExprs c = some s := by
        cases hcase : alGet σ.exprToDependentExprs c with
        | none => rw [hcase] at hc; simp at hc
        | some s => exact ⟨s, rfl⟩
      set σ₁ : DB :=
        { σ with exprToDependentExprs := alSet σ.exprToDependentExprs c (sDel e s) } with hσ₁
      have hdep : σ₁.exprToDependentExprs = alSet σ.exprToDependentExprs c (sDel e s) := by
        rw [hσ₁]
      have hs₁ : ∀ c' ∈ rest, (alGet σ₁.exprToDependentExprs c').isSome = true := by
        intro c' hc'
        rw [hdep, alGet_alSet]
        split
        · rfl
        · exact hs c' (List.mem_cons_of_mem c hc')
      obtain ⟨σ', hrun, hcon, hcache, haux, hmem⟩ := ih σ₁ hs₁
      refine ⟨σ', ?_, ?_, ?_, ?_, ?_⟩
      · rw [clearExprDependenciesLoop, hsome]
        exact hrun
      · rw [hcon, hσ₁]
      · rw [hcache, hσ₁]
      · obtain ⟨a1, a2, a3, a4⟩ := haux
        rw [hσ₁] at a1 a2 a3 a4
        exact ⟨a1, a2, a3, a4⟩
      · intro x y
        rw [hmem x y]
        have hlk : lookupSet σ₁.exprToDependentExprs x =
            if x = c then sDel e s else lookupSet σ.exprToDependentExprs x := by
          rw [hdep, lookupSet_alSet]
        rw [hlk]
        have hls : lookupSet σ.exprToDependentExprs c = s := by
          simp [lookupSet, hsome]
        by_cases hx : x = c
        · rw [if_pos hx, sDel_mem, hx, hls]
          constructor
          · rintro ⟨⟨hy, hne⟩, _⟩
            exact ⟨hy, fun h' => hne h'.2⟩
          · rintro ⟨hy, hno⟩
            refine ⟨⟨hy, fun hye => hno ⟨List.mem_cons_self c rest, hye⟩⟩, ?_⟩
            rintro ⟨hxr, hye⟩
            exact hno ⟨List.mem_cons_of_mem c hxr, hye⟩
        · rw [if_neg hx]
          constructor
          · rintro ⟨hy, hno⟩
            refine ⟨hy, ?_⟩
            rintro ⟨hxm, hye⟩
            rcases List.mem_cons.mp hxm with h' | h'
            · exact hx h'
            · exact hno ⟨h', hye⟩
          · rintro ⟨hy, hno⟩
            exact ⟨hy, fun h' => hno ⟨List.mem_cons_of_mem c h'.1, h'.2⟩⟩

theorem clearExprDependencies_spec {σ : DB} (h : InvIdx σ) (e : Expr) :
    ∃ σ', clearExprDependencies σ e = (.ok (), σ') ∧ InvIdx σ' ∧
      σ'.exprToCachedResult = σ.exprToCachedResult ∧ auxFieldsEq σ σ' := by
  unfold clearExprDependencies
  cases hck : alGet σ.exprToContributorExprs e with
  | none =>
      refine ⟨_, rfl, ?_, rfl, ⟨rfl, rfl, rfl, rfl⟩⟩
      intro e' f
      simp only [lookupSet_alDelete]
      rw [h e' f]
      split
      · rename_i hfe
        subst hfe
        simp [lookupSet, hck]
      · rfl
  | some cs =>
      have hcs : lookupSet σ.exprToContributorExprs e = cs := by
        simp [lookupSet, hck]
      set σ₁ : DB :=
        { σ with exprToContributorExprs := alDelete σ.exprToContributorExprs e } with hσ₁
      have hs : ∀ c ∈ cs, (alGet σ₁.exprToDependentExprs c).isSome = true := by
        intro c hc
        have : e ∈ lookupSet σ.exprToDependentExprs c := by
          rw [h c e, hcs]
          exact hc
        simp only [hσ₁]
        unfold lookupSet at this
        cases hcase : alGet σ.exprToDependentExprs c with
        | none => rw [hcase] at this; simp at this
        | some _ => rfl
      obtain ⟨σ', hrun, hcon, hcache, haux, hmem⟩ := clearExprDependenciesLoop_spec e cs σ₁ hs
      refine ⟨σ', hrun, ?_, hcache, haux⟩
      intro e' f
      rw [hmem e' f]
      have hcon' : lookupSet σ'.exprToContributorExprs f =
          if f = e then [] else lookupSet σ.exprToContributorExprs f := by
        rw [hcon]
        simp only [hσ₁, lookupSet_alDelete]
      have hdep₁ : lookupSet σ₁.exprToDependentExprs e' =
          lookupSet σ.exprToDependentExprs e' := rfl
      rw [hdep₁, hcon', h e']
      by_cases hf : f = e
      · subst hf
        simp only [if_pos rfl, List.not_mem_nil, iff_false]
        rw [← hcs]
        tauto
      · simp only [if_neg hf]
        have : ¬(e' ∈ cs ∧ f = e) := by
          intro hcontra
          exact hf hcontra.2
        tauto

theorem invalidateSingleExprResult_spec {σ : DB} (h : InvIdx σ) (e : Expr) :
    ∃ σ', invalidateSingleExprResult σ e = (.ok (), σ') ∧ InvIdx σ' ∧ auxFieldsEq σ σ' := by
  unfold invalidateSingleExprResult
  have h₁ : InvIdx { σ with exprToCachedResult := alDelete σ.exprToCachedResult e } := h
  obtain ⟨σ', hrun, hinv, _, haux⟩ := clearExprDependencies_spec h₁ e
  exact ⟨σ', hrun, hinv, haux⟩

theorem invalidateAffectedExprs_spec (es : List Expr) (σ : DB) (h : InvIdx σ) :
    ∃ σ', invalidateAffectedExprs es σ = (.ok (), σ') ∧ InvIdx σ' ∧ auxFieldsEq σ σ' := by
  induction es generalizing σ with
  | nil => exact ⟨σ, rfl, h, ⟨rfl, rfl, rfl, rfl⟩⟩
  | cons e rest ih =>
      obtain ⟨σ₁, hrun₁, hinv₁, haux₁⟩ := invalidateSingleExprResult_spec h e
      obtain ⟨σ', hrun', hinv', haux'⟩ := ih σ₁ hinv₁
      refine ⟨σ', ?_, hinv', ?_⟩
      · rw [invalidateAffectedExprs, hrun₁]
        exact hrun'
      · obtain ⟨a1, a2, a3, a4⟩ := haux₁
        obtain ⟨b1, b2, b3, b4⟩ := haux'
        exact ⟨b1.trans a1, b2.trans a2, b3.trans a3, b4.trans a4⟩

theorem invIdx_master (env : Env) : ∀ fuel : Nat,
    (∀ σ e, InvIdx σ → InvIdx (getResultFromImmExpr env fuel σ e).2) ∧
    (∀ σ ts, InvIdx σ → InvIdx (derivativeTermScan env fuel σ ts).2) ∧
    (∀ σ e, InvIdx σ → InvIdx (updateExprCacheAndGetResult env fuel σ e).2) ∧
    (∀ σ e, InvIdx σ → InvIdx (spyResult env fuel σ e).2) ∧
    (∀ σ e v, InvIdx σ → InvIdx (setDerivative env fuel σ e v).2) ∧
    (∀ σ e v, InvIdx σ → InvIdx (setResultGetAffectedExprs env fuel σ e v).2) ∧
    (∀ p σ, InvIdx σ → InvIdx (runProg env fuel p σ).2) := by
  intro fuel
  induction fuel with
  | zero =>
      refine ⟨fun σ e hσ => hσ, fun σ ts hσ => hσ, fun σ e hσ => hσ, fun σ e hσ => hσ,
        fun σ e v hσ => hσ, fun σ e v hσ => hσ, fun p σ hσ => hσ⟩
  | succ n ih =>
      obtain ⟨ih_get, ih_scan, ih_upd, ih_spy, ih_setd, ih_setr, ih_run⟩ := ih
      have w_get : ∀ {σ e r}, getResultFromImmExpr env n σ e = r → InvIdx σ → InvIdx r.2 :=
        fun hr h => hr ▸ ih_get _ _ h
      have w_scan : ∀ {σ ts r}, derivativeTermScan env n σ ts = r → InvIdx σ → InvIdx r.2 :=
        fun hr h => hr ▸ ih_scan _ _ h
      have w_upd : ∀ {σ e r}, updateExprCacheAndGetResult env n σ e = r →
          InvIdx σ → InvIdx r.2 :=
        fun hr h => hr ▸ ih_upd _ _ h
      have w_spy : ∀ {σ e r}, spyResult env n σ e = r → InvIdx σ → InvIdx r.2 :=
        fun hr h => hr ▸ ih_spy _ _ h
      have w_setd : ∀ {σ e v r}, setDerivative env n σ e v = r → InvIdx σ → InvIdx r.2 :=
        fun hr h => hr ▸ ih_setd _ _ _ h
      have w_setr : ∀ {σ e v r}, setResultGetAffectedExprs env n σ e v = r →
          InvIdx σ → InvIdx r.2 :=
        fun hr h => hr ▸ ih_setr _ _ _ h
      have w_run : ∀ {p σ r}, runProg env n p σ = r → InvIdx σ → InvIdx r.2 :=
        fun hr h => hr ▸ ih_run _ _ h
      have h_upd : ∀ σ e, InvIdx σ → InvIdx (updateExprCacheAndGetResult env (n+1) σ e).2 := by
        intro σ e hσ
        simp only [updateExprCacheAndGetResult]
        split
        · exact hσ
        · split
          · split
            all_goals rename_i heq
            all_goals have hw := w_run heq hσ
            all_goals exact hw
          · exact hσ
      have h_get : ∀ σ e, InvIdx σ → InvIdx (getResultFromImmExpr env (n+1) σ e).2 := by
        intro σ e hσ
        simp only [getResultFromImmExpr]
        split
        · exact hσ
        · split
          · exact ih_upd σ e hσ
          · split
            all_goals rename_i heq
            all_goals have hw := w_scan heq hσ
            all_goals exact hw
      have h_scan : ∀ σ ts, InvIdx σ → InvIdx (derivativeTermScan env (n+1) σ ts).2 := by
        intro σ ts hσ
        cases ts with
        | nil => exact hσ
        | cons t rest =>
            simp only [derivativeTermScan]
            split
            · split
              · exact ih_scan _ rest hσ
              · split
                · rename_i heq
                  exact ih_scan _ rest (w_get heq hσ)
                · rename_i heq
                  have hw := w_get heq hσ
                  exact hw
                · rename_i heq
                  have hw := w_get heq hσ
                  exact hw
            · exact ih_scan _ rest hσ
      have h_spy : ∀ σ e, InvIdx σ → InvIdx (spyResult env (n+1) σ e).2 := by
        intro σ e hσ
        simp only [spyResult]
        split
        · rename_i d _
          exact ih_get _ e (invIdx_addDependency hσ d e)
        · exact ih_get _ e hσ
      have h_setr : ∀ σ e v, InvIdx σ → InvIdx (setResultGetAffectedExprs env (n+1) σ e v).2 := by
        intro σ e v hσ
        simp only [setResultGetAffectedExprs]
        obtain ⟨σ₁, hrun₁, hinv₁, _⟩ :=
          invalidateAffectedExprs_spec (getAllDependentExprsIncludingSeed σ e) σ hσ
        split
        · rename_i heq
          rw [hrun₁] at heq
          cases heq
        · rename_i heq
          rw [hrun₁] at heq
          cases heq
        · rename_i u σ₁' heq
          rw [hrun₁] at heq
          cases heq
          split
          · split
            · rename_i heq₂
              have hrun := w_run heq₂ (hinv₁ : InvIdx _)
              split <;> exact hrun
            · rename_i heq₂
              have hrun := w_run heq₂ (hinv₁ : InvIdx _)
              exact hrun
            · rename_i heq₂
              have hrun := w_run heq₂ (hinv₁ : InvIdx _)
              exact hrun
          · exact hinv₁
      have h_setd : ∀ σ e v, InvIdx σ → InvIdx (setDerivative env (n+1) σ e v).2 := by
        intro σ e v hσ
        simp only [setDerivative]
        split
        · exact hσ
        · split
          · rename_i heq
            have hsr := w_setr heq hσ
            split
            · exact invIdx_addDependency hsr _ _
            · exact hsr
          · rename_i heq
            have hw := w_setr heq hσ
            exact hw
          · rename_i heq
            have hw := w_setr heq hσ
            exact hw
      have h_run : ∀ p σ, InvIdx σ → InvIdx (runProg env (n+1) p σ).2 := by
        intro p σ hσ
        cases p with
        | ret v => exact hσ
        | throwV v => exact hσ
        | throwAsyncIncomplete e => exact hσ
        | spyThen e k =>
            simp only [runProg]
            split
            · rename_i v σ' heq
              exact ih_run (k v) σ' (w_spy heq hσ)
            · rename_i heq
              have hw := w_spy heq hσ
              exact hw
            · rename_i heq
              have hw := w_spy heq hσ
              exact hw
        | getThen e k =>
            simp only [runProg]
            split
            · rename_i v σ' heq
              exact ih_run (k v) σ' (w_get heq hσ)
            · rename_i heq
              have hw := w_get heq hσ
              exact hw
            · rename_i heq
              have hw := w_get heq hσ
              exact hw
        | getDerivativeIdThen uniqueKey k =>
            simp only [runProg]
            split
            · exact hσ
            · exact ih_run _ σ hσ
        | setDerivativeThen e v k =>
            simp only [runProg]
            split
            · rename_i σ' heq
              exact ih_run k σ' (w_setd heq hσ)
            · rename_i heq
              have hw := w_setd heq hσ
              exact hw
            · rename_i heq
              have hw := w_setd heq hσ
              exact hw
      exact ⟨h_get, h_scan, h_upd, h_spy, h_setd, h_setr, h_run⟩

theorem invIdx_emptyDB : InvIdx emptyDB := by
  intro e f
  simp [emptyDB, lookupSet, alGet]

theorem invIdx_withGetAffectedRels (env : Env) (fuel : Nat) (σ : DB) (e : Expr) (v : Term)
    (h : InvIdx σ) : InvIdx (withGetAffectedRels env fuel σ e v).2 := by
  unfold withGetAffectedRels
  exact (invIdx_master env fuel).2.2.2.2.2.1 _ e v (h : InvIdx _)

theorem invIdx_withModifiedGetAffectedRels (env : Env) (fuel : Nat) (σ : DB) (e : Expr)
    (m : Term → Term) (h : InvIdx σ) :
    InvIdx (withModifiedGetAffectedRels env fuel σ e m).2 := by
  unfold withModifiedGetAffectedRels
  split
  · rename_i v σ' heq
    have hg : InvIdx σ' := by
      have := (invIdx_master env fuel).1 σ e h
      rw [heq] at this
      exact this
    exact invIdx_withGetAffectedRels env fuel σ' e (m v) hg
  · rename_i heq
    have := (invIdx_master env fuel).1 σ e h
    rw [heq] at this
    exact this
  · rename_i heq
    have := (invIdx_master env fuel).1 σ e h
    rw [heq] at this
    exact this

/-- C4: for every store state reachable by any sequence of with,
withModified, get, spy and setDerivative operations, the contributors
and dependents indices are exact inverses: f is a member of
dependents of e exactly when e is a member of contributors of f. -/
theorem C4_inverse_indices (env : Env) (σ : DB) (h : Reachable env σ) : InvIdx σ := by
  induction h with
  | init => exact invIdx_emptyDB
  | step op fuel hr ih =>
      rename_i σ₀
      cases op with
      | getOp e => exact (invIdx_master env fuel).1 σ₀ e ih
      | spyOp e => exact (invIdx_master env fuel).2.2.2.1 σ₀ e ih
      | withOp e v => exact invIdx_withGetAffectedRels env fuel σ₀ e v ih
      | withModifiedOp e m => exact invIdx_withModifiedGetAffectedRels env fuel σ₀ e m ih
      | setDerivativeOp e v => exact (invIdx_master env fuel).2.2.2.2.1 σ₀ e v ih

/-- Witness for C4: a concrete reachable state (a write of base := 10
followed by a get of the dependent function 2) satisfies the invariant. -/
theorem C4_inverse_indices_witness :
    InvIdx (applyOp demoEnv 9
      (applyOp demoEnv 9 emptyDB (Op.withOp [Term.str "base"] (Term.int 10)))
      (Op.getOp [Term.fn 2])) :=
  C4_inverse_indices demoEnv _
    (Reachable.step _ 9 (Reachable.step _ 9 Reachable.init))

/-! ### Preservation of the currentlyComputing set -/

theorem clearExprDependenciesLoop_cc (e : Expr) (cs : List Expr) (σ : DB) :
    (clearExprDependenciesLoop e cs σ).2.currentlyComputingExprs =
      σ.currentlyComputingExprs := by
  induction cs generalizing σ with
  | nil => rfl
  | cons c rest ih =>
      simp only [clearExprDependenciesLoop]
      split
      · rfl
      · exact ih _

theorem clearExprDependencies_cc (σ : DB) (e : Expr) :
    (clearExprDependencies σ e).2.currentlyComputingExprs = σ.currentlyComputingExprs := by
  unfold clearExprDependencies
  cases hck : alGet σ.exprToContributorExprs e with
  | none => simp only [hck]
  | some cs =>
      simp only [hck]
      exact clearExprDependenciesLoop_cc e cs _

theorem invalidateSingleExprResult_cc (σ : DB) (e : Expr) :
    (invalidateSingleExprResult σ e).2.currentlyComputingExprs =
      σ.currentlyComputingExprs := by
  unfold invalidateSingleExprResult
  exact clearExprDependencies_cc _ e

theorem invalidateAffectedExprs_cc (es : List Expr) (σ : DB) :
    (invalidateAffectedExprs es σ).2.currentlyComputingExprs =
      σ.currentlyComputingExprs := by
  induction es generalizing σ with
  | nil => rfl
  | cons e rest ih =>
      simp only [invalidateAffectedExprs]
      split
      · rename_i σ' heq
        have h := invalidateSingleExprResult_cc σ e
        rw [heq] at h
        exact (ih σ').trans h
      · rename_i heq
        have h := invalidateSingleExprResult_cc σ e
        rw [heq] at h
        exact h
      · rename_i heq
        have h := invalidateSingleExprResult_cc σ e
        rw [heq] at h
        exact h

theorem ccMono_master (env : Env) (x : Expr) : ∀ fuel : Nat,
    (∀ σ e, x ∈ σ.currentlyComputingExprs →
      x ∈ (getResultFromImmExpr env fuel σ e).2.currentlyComputingExprs) ∧
    (∀ σ ts, x ∈ σ.currentlyComputingExprs →
      x ∈ (derivativeTermScan env fuel σ ts).2.currentlyComputingExprs) ∧
    (∀ σ e, x ∈ σ.currentlyComputingExprs →
      x ∈ (updateExprCacheAndGetResult env fuel σ e).2.currentlyComputingExprs) ∧
    (∀ σ e, x ∈ σ.currentlyComputingExprs →
      x ∈ (spyResult env fuel σ e).2.currentlyComputingExprs) ∧
    (∀ σ e v, x ∈ σ.currentlyComputingExprs →
      x ∈ (setDerivative env fuel σ e v).2.currentlyComputingExprs) ∧
    (∀ σ e v, x ∈ σ.currentlyComputingExprs →
      x ∈ (setResultGetAffectedExprs env fuel σ e v).2.currentlyComputingExprs) ∧
    (∀ p σ, x ∈ σ.currentlyComputingExprs →
      x ∈ (runProg env fuel p σ).2.currentlyComputingExprs) := by
  intro fuel
  induction fuel with
  | zero =>
      refine ⟨fun σ e h => h, fun σ ts h => h, fun σ e h => h, fun σ e h => h,
        fun σ e v h => h, fun σ e v h => h, fun p σ h => h⟩
  | succ n ih =>
      obtain ⟨ih_get, ih_scan, ih_upd, ih_spy, ih_setd, ih_setr, ih_run⟩ := ih
      have w_get : ∀ {σ e r}, getResultFromImmExpr env n σ e = r →
          x ∈ σ.currentlyComputingExprs → x ∈ r.2.currentlyComputingExprs :=
        fun hr h => hr ▸ ih_get _ _ h
      have w_scan : ∀ {σ ts r}, derivativeTermScan env n σ ts = r →
          x ∈ σ.currentlyComputingExprs → x ∈ r.2.currentlyComputingExprs :=
        fun hr h => hr ▸ ih_scan _ _ h
      have w_spy : ∀ {σ e r}, spyResult env n σ e = r →
          x ∈ σ.currentlyComputingExprs → x ∈ r.2.currentlyComputingExprs :=
        fun hr h => hr ▸ ih_spy _ _ h
      have w_setd : ∀ {σ e v r}, setDerivative env n σ e v = r →
          x ∈ σ.currentlyComputingExprs → x ∈ r.2.currentlyComputingExprs :=
        fun hr h => hr ▸ ih_setd _ _ _ h
      have w_setr : ∀ {σ e v r}, setResultGetAffectedExprs env n σ e v = r →
          x ∈ σ.currentlyComputingExprs → x ∈ r.2.currentlyComputingExprs :=
        fun hr h => hr ▸ ih_setr _ _ _ h
      have w_run : ∀ {p σ r}, runProg env n p σ = r →
          x ∈ σ.currentlyComputingExprs → x ∈ r.2.currentlyComputingExprs :=
        fun hr h => hr ▸ ih_run _ _ h
      have h_upd : ∀ σ e, x ∈ σ.currentlyComputingExprs →
          x ∈ (updateExprCacheAndGetResult env (n+1) σ e).2.currentlyComputingExprs := by
        intro σ e hx
        simp only [updateExprCacheAndGetResult]
        split
        · exact hx
        · rename_i hnotin
          have hne : x ≠ e := fun hxe => hnotin (hxe ▸ hx)
          have hx₁ : x ∈ sAdd e σ.currentlyComputingExprs := sAdd_mem.mpr (Or.inr hx)
          split
          · split
            · rename_i heq
              have hw := w_run heq hx₁
              simp only []
              exact sDel_mem.mpr ⟨hw, hne⟩
            · rename_i heq
              have hw := w_run heq hx₁
              exact hw
            · rename_i heq
              have hw := w_run heq hx₁
              exact hw
          · exact hx₁
      have h_get : ∀ σ e, x ∈ σ.currentlyComputingExprs →
          x ∈ (getResultFromImmExpr env (n+1) σ e).2.currentlyComputingExprs := by
        intro σ e hx
        simp only [getResultFromImmExpr]
        split
        · exact hx
        · split
          · exact ih_upd σ e hx
          · split
            all_goals rename_i heq
            all_goals have hw := w_scan heq hx
            all_goals exact hw
      have h_scan : ∀ σ ts, x ∈ σ.currentlyComputingExprs →
          x ∈ (derivativeTermScan env (n+1) σ ts).2.currentlyComputingExprs := by
        intro σ ts hx
        cases ts with
        | nil => exact hx
        | cons t rest =>
            simp only [derivativeTermScan]
            split
            · split
              · exact ih_scan _ rest hx
              · split
                · rename_i heq
                  exact ih_scan _ rest (w_get heq hx)
                · rename_i heq
                  have hw := w_get heq hx
                  exact hw
                · rename_i heq
                  have hw := w_get heq hx
                  exact hw
            · exact ih_scan _ rest hx
      have h_spy : ∀ σ e, x ∈ σ.currentlyComputingExprs →
          x ∈ (spyResult env (n+1) σ e).2.currentlyComputingExprs := by
        intro σ e hx
        simp only [spyResult]
        split
        · exact ih_get _ e hx
        · exact ih_get _ e hx
      have h_setr : ∀ σ e v, x ∈ σ.currentlyComputingExprs →
          x ∈ (setResultGetAffectedExprs env (n+1) σ e v).2.currentlyComputingExprs := by
        intro σ e v hx
        simp only [setResultGetAffectedExprs]
        have hccinv := invalidateAffectedExprs_cc (getAllDependentExprsIncludingSeed σ e) σ
        split
        all_goals rename_i heq
        all_goals rw [heq] at hccinv
        · exact hccinv ▸ hx
        · exact hccinv ▸ hx
        · have hx₁ : x ∈ _ := hccinv ▸ hx
          split
          · split
            · rename_i heq₂
              have hw := w_run heq₂ hx₁
              split <;> exact hw
            · rename_i heq₂
              have hw := w_run heq₂ hx₁
              exact hw
            · rename_i heq₂
              have hw := w_run heq₂ hx₁
              exact hw
          · exact hx₁
      have h_setd : ∀ σ e v, x ∈ σ.currentlyComputingExprs →
          x ∈ (setDerivative env (n+1) σ e v).2.currentlyComputingExprs := by
        intro σ e v hx
        simp only [setDerivative]
        split
        · exact hx
        · split
          · rename_i heq
            have hw := w_setr heq hx
            split
            · exact hw
            · exact hw
          · rename_i heq
            have hw := w_setr heq hx
            exact hw
          · rename_i heq
            have hw := w_setr heq hx
            exact hw
      have h_run : ∀ p σ, x ∈ σ.currentlyComputingExprs →
          x ∈ (runProg env (n+1) p σ).2.currentlyComputingExprs := by
        intro p σ hx
        cases p with
        | ret v => exact hx
        | throwV v => exact hx
        | throwAsyncIncomplete e => exact hx
        | spyThen e k =>
            simp only [runProg]
            split
            · rename_i v σ' heq
              exact ih_run (k v) σ' (w_spy heq hx)
            · rename_i heq
              have hw := w_spy heq hx
              exact hw
            · rename_i heq
              have hw := w_spy heq hx
              exact hw
        | getThen e k =>
            simp only [runProg]
            split
            · rename_i v σ' heq
              exact ih_run (k v) σ' (w_get heq hx)
            · rename_i heq
              have hw := w_get heq hx
              exact hw
            · rename_i heq
              have hw := w_get heq hx
              exact hw
        | getDerivativeIdThen uniqueKey k =>
            simp only [runProg]
            split
            · exact hx
            · exact ih_run _ σ hx
        | setDerivativeThen e v k =>
            simp only [runProg]
            split
            · rename_i σ' heq
              exact ih_run k σ' (w_setd heq hx)
            · rename_i heq
              have hw := w_setd heq hx
              exact hw
            · rename_i heq
              have hw := w_setd heq hx
              exact hw
      exact ⟨h_get, h_scan, h_upd, h_spy, h_setd, h_setr, h_run⟩

/-! ### Shape lemmas for single reads -/

theorem getResultFromImmExpr_cached (env : Env) (fuel : Nat) (σ : DB) (e : Expr) (v : Term)
    (hc : alGet σ.exprToCachedResult e = some v) :
    getResultFromImmExpr env (fuel+1) σ e = (.ok v, σ) := by
  simp [getResultFromImmExpr, hc]

theorem getResultFromImmExpr_ccHit (env : Env) (fuel : Nat) (σ : DB) (e : Expr) (f : Nat)
    (hcache : alGet σ.exprToCachedResult e = none)
    (hfn : e.head? = some (Term.fn f))
    (hcc : e ∈ σ.currentlyComputingExprs) :
    getResultFromImmExpr env (fuel+2) σ e = (.ok .undef, σ) := by
  simp [getResultFromImmExpr, hcache, hfn, updateExprCacheAndGetResult, hcc]

theorem spyResult_ccHit (env : Env) (fuel : Nat) (σ : DB) (e : Expr) (f : Nat)
    (hcache : alGet σ.exprToCachedResult e = none)
    (hfn : e.head? = some (Term.fn f))
    (hcc : e ∈ σ.currentlyComputingExprs) :
    (spyResult env (fuel+3) σ e).1 = .ok .undef ∧
    (spyResult env (fuel+3) σ e).2.exprToCachedResult = σ.exprToCachedResult ∧
    (spyResult env (fuel+3) σ e).2.calls = σ.calls ∧
    (spyResult env (fuel+3) σ e).2.currentlyComputingExprs = σ.currentlyComputingExprs := by
  simp only [spyResult]
  cases hd : σ.currentDeepestComputingExpr with
  | none =>
      simp only []
      rw [getResultFromImmExpr_ccHit env fuel σ e f hcache hfn hcc]
      exact ⟨rfl, rfl, rfl, rfl⟩
  | some d =>
      simp only []
      have hcache' : alGet (addDependency σ d e).exprToCachedResult e = none := hcache
      have hcc' : e ∈ (addDependency σ d e).currentlyComputingExprs := hcc
      rw [getResultFromImmExpr_ccHit env fuel _ e f hcache' hfn hcc']
      exact ⟨rfl, rfl, rfl, rfl⟩

theorem getResultFromImmExpr_throwShape (env : Env) (fuel : Nat) (σ : DB) (f : Nat)
    (args : List Term) (v : Term)
    (hprog : env.fns f args = Prog.throwV v)
    (hcache : alGet σ.exprToCachedResult (Term.fn f :: args) = none)
    (hcc : Term.fn f :: args ∉ σ.currentlyComputingExprs) :
    getResultFromImmExpr env (fuel+3) σ (Term.fn f :: args) =
      (.thrown (.userThrow v),
       { σ with currentDeepestComputingExpr := some (Term.fn f :: args),
                currentlyComputingExprs := sAdd (Term.fn f :: args) σ.currentlyComputingExprs,
                calls := σ.calls ++ [(f, args)] }) := by
  simp [getResultFromImmExpr, hcache, updateExprCacheAndGetResult, hcc, List.head?,
    List.tail, hprog, runProg]

/-- A database state in which the self-spying expression is marked as
currently computing. -/
def ccPoisonedDB : DB := { emptyDB with currentlyComputingExprs := [[Term.fn 0]] }

/-- C1 counterexample: issuing get on the self-spying expression [rec]
(function 0 spies its own expression) returns normally with undefined —
no RecursiveExpressionComputation error, indeed no error of any kind,
is raised, contradicting the claim that such a get raises. -/
theorem C1_counterexample :
    (getResultFromImmExpr demoEnv 9 emptyDB [Term.fn 0]).1 = Res.ok Term.undef := by decide

/-- C1 (amended): when get or spy is issued for an expression with a
function head, no cached result, that is already a member of
currentlyComputing, the engine returns undefined instead of raising an
error; the get performs no mutation at all. -/
theorem C1_recursive_call_returns_undefined (env : Env) (fuel : Nat) (σ : DB) (e : Expr)
    (f : Nat) (hcache : alGet σ.exprToCachedResult e = none)
    (hfn : e.head? = some (Term.fn f)) (hcc : e ∈ σ.currentlyComputingExprs) :
    getResultFromImmExpr env (fuel+2) σ e = (.ok .undef, σ) ∧
    (spyResult env (fuel+3) σ e).1 = .ok .undef :=
  ⟨getResultFromImmExpr_ccHit env fuel σ e f hcache hfn hcc,
   (spyResult_ccHit env fuel σ e f hcache hfn hcc).1⟩

/-- Witness for C1: the concrete recursive expression in a state where
it is marked as currently computing. -/
theorem C1_recursive_call_returns_undefined_witness :
    getResultFromImmExpr demoEnv 7 ccPoisonedDB [Term.fn 0] = (.ok .undef, ccPoisonedDB) ∧
    (spyResult demoEnv 8 ccPoisonedDB [Term.fn 0]).1 = .ok .undef :=
  C1_recursive_call_returns_undefined demoEnv 5 ccPoisonedDB [Term.fn 0] 0
    (by decide) (by decide) (by decide)

/-- C2 counterexample: function 1 throws the string boom.  The first
get propagates the thrown value but caches nothing, and a second get
returns undefined instead of re-raising boom, contradicting the claim
that the thrown value is cached and re-raised. -/
theorem C2_counterexample :
    (getResultFromImmExpr demoEnv 9 emptyDB [Term.fn 1]).1
      = .thrown (.userThrow (.str "boom")) ∧
    alGet (getResultFromImmExpr demoEnv 9 emptyDB [Term.fn 1]).2.exprToCachedResult
      [Term.fn 1] = none ∧
    (getResultFromImmExpr demoEnv 9
        (getResultFromImmExpr demoEnv 9 emptyDB [Term.fn 1]).2 [Term.fn 1]).1
      = .ok .undef :=
  ⟨by decide, by decide, by decide⟩

/-- C2 (amended): a value thrown by a predicate propagates out of the
triggering get; it is not cached, the expression remains in
currentlyComputing, and a later get of the same expression returns
undefined without invoking the predicate again and without creating a
cache entry. -/
theorem C2_thrown_not_cached (env : Env) (fuel g : Nat) (σ : DB) (f : Nat) (args : List Term)
    (v : Term) (hprog : env.fns f args = Prog.throwV v)
    (hcache : alGet σ.exprToCachedResult (Term.fn f :: args) = none)
    (hcc : Term.fn f :: args ∉ σ.currentlyComputingExprs) :
    ∃ σ', getResultFromImmExpr env (fuel+3) σ (Term.fn f :: args)
        = (.thrown (.userThrow v), σ') ∧
      alGet σ'.exprToCachedResult (Term.fn f :: args) = none ∧
      Term.fn f :: args ∈ σ'.currentlyComputingExprs ∧
      σ'.calls = σ.calls ++ [(f, args)] ∧
      getResultFromImmExpr env (g+2) σ' (Term.fn f :: args) = (.ok .undef, σ') := by
  refine ⟨_, getResultFromImmExpr_throwShape env fuel σ f args v hprog hcache hcc,
    hcache, sAdd_mem.mpr (Or.inl rfl), rfl, ?_⟩
  exact getResultFromImmExpr_ccHit env g _ _ f hcache rfl (sAdd_mem.mpr (Or.inl rfl))

/-- Witness for C2: the concrete throwing predicate (function 1) on a
fresh database. -/
theorem C2_thrown_not_cached_witness :
    ∃ σ', getResultFromImmExpr demoEnv 8 emptyDB [Term.fn 1]
        = (.thrown (.userThrow (.str "boom")), σ') ∧
      alGet σ'.exprToCachedResult [Term.fn 1] = none ∧
      [Term.fn 1] ∈ σ'.currentlyComputingExprs ∧
      σ'.calls = emptyDB.calls ++ [(1, [])] ∧
      getResultFromImmExpr demoEnv 6 σ' [Term.fn 1] = (.ok .undef, σ') :=
  C2_thrown_not_cached demoEnv 5 4 emptyDB 1 [] (.str "boom") rfl (by decide) (by decide)

/-- C5 counterexample: after one get of the self-spying expression from
a fresh database — a reachable state — the expression is cached and is
a member of its own contributors, a cycle in the contributors relation
restricted to cached expressions; the recursion attempt did not prevent
the cached entry. -/
theorem C5_counterexample :
    Reachable demoEnv (applyOp demoEnv 9 emptyDB (Op.getOp [Term.fn 0])) ∧
    (alGet (applyOp demoEnv 9 emptyDB (Op.getOp [Term.fn 0])).exprToCachedResult
      [Term.fn 0]).isSome = true ∧
    [Term.fn 0] ∈ lookupSet
      (applyOp demoEnv 9 emptyDB (Op.getOp [Term.fn 0])).exprToContributorExprs
      [Term.fn 0] :=
  ⟨Reachable.step _ 9 Reachable.init, by decide, by decide⟩

/-- C5 (amended): a recursion attempt returns undefined for the inner
occurrence while the outer evaluation still caches its own result, so a
cached expression can appear among its own contributors: concretely,
get([rec]) yields undefined, caches undefined for [rec], and records
[rec] among its own contributors. -/
theorem C5_self_spy_cycle :
    (getResultFromImmExpr demoEnv 9 emptyDB [Term.fn 0]).1 = .ok .undef ∧
    alGet (getResultFromImmExpr demoEnv 9 emptyDB [Term.fn 0]).2.exprToCachedResult
      [Term.fn 0] = some Term.undef ∧
    [Term.fn 0] ∈ lookupSet
      (getResultFromImmExpr demoEnv 9 emptyDB [Term.fn 0]).2.exprToContributorExprs
      [Term.fn 0] :=
  ⟨by decide, by decide, by decide⟩

/-- C10: a predicate that throws leaves its expression in
currentlyComputing (first conjunct); an expression that is in
currentlyComputing and uncached is returned as undefined by get with no
mutation, and by spy with no predicate invocation and no new cache
entry (second conjunct); and no later get or spy of any expression ever
removes it from currentlyComputing (third conjunct). -/
theorem C10_poisoned_currentlyComputing (env : Env) :
    (∀ fuel σ f args v, env.fns f args = Prog.throwV v →
      alGet σ.exprToCachedResult (Term.fn f :: args) = none →
      Term.fn f :: args ∉ σ.currentlyComputingExprs →
      ∃ σ', getResultFromImmExpr env (fuel+3) σ (Term.fn f :: args)
          = (.thrown (.userThrow v), σ') ∧
        Term.fn f :: args ∈ σ'.currentlyComputingExprs ∧
        alGet σ'.exprToCachedResult (Term.fn f :: args) = none) ∧
    (∀ fuel σ e f, alGet σ.exprToCachedResult e = none →
      e.head? = some (Term.fn f) → e ∈ σ.currentlyComputingExprs →
      getResultFromImmExpr env (fuel+2) σ e = (.ok .undef, σ) ∧
      (spyResult env (fuel+3) σ e).1 = .ok .undef ∧
      (spyResult env (fuel+3) σ e).2.exprToCachedResult = σ.exprToCachedResult ∧
      (spyResult env (fuel+3) σ e).2.calls = σ.calls) ∧
    (∀ fuel σ x other,
      x ∈ σ.currentlyComputingExprs →
      x ∈ (getResultFromImmExpr env fuel σ other).2.currentlyComputingExprs ∧
      x ∈ (spyResult env fuel σ other).2.currentlyComputingExprs) := by
  refine ⟨?_, ?_, ?_⟩
  · intro fuel σ f args v hprog hcache hcc
    exact ⟨_, getResultFromImmExpr_throwShape env fuel σ f args v hprog hcache hcc,
      sAdd_mem.mpr (Or.inl rfl), hcache⟩
  · intro fuel σ e f hcache hfn hcc
    obtain ⟨h1, h2, h3, _⟩ := spyResult_ccHit env fuel σ e f hcache hfn hcc
    exact ⟨getResultFromImmExpr_ccHit env fuel σ e f hcache hfn hcc, h1, h2, h3⟩
  · intro fuel σ x other hx
    exact ⟨(ccMono_master env x fuel).1 σ other hx,
      (ccMono_master env x fuel).2.2.2.1 σ other hx⟩

/-- Witness for C10: the throwing predicate (function 1), followed by a
later get of the poisoned expression and a later spy of an unrelated
expression, on a fresh database. -/
theorem C10_poisoned_currentlyComputing_witness :
    (∃ σ', getResultFromImmExpr demoEnv 8 emptyDB [Term.fn 1]
        = (.thrown (.userThrow (.str "boom")), σ') ∧
      [Term.fn 1] ∈ σ'.currentlyComputingExprs ∧
      alGet σ'.exprToCachedResult [Term.fn 1] = none) ∧
    (getResultFromImmExpr demoEnv 7 ccPoisonedDB [Term.fn 0] = (.ok .undef, ccPoisonedDB)) ∧
    ([Term.fn 0] ∈
      (spyResult demoEnv 9 ccPoisonedDB [Term.str "base"]).2.currentlyComputingExprs) :=
  ⟨(C10_poisoned_currentlyComputing demoEnv).1 5 emptyDB 1 [] (.str "boom") rfl
      (by decide) (by decide),
   ((C10_poisoned_currentlyComputing demoEnv).2.1 5 ccPoisonedDB [Term.fn 0] 0
      (by decide) (by decide) (by decide)).1,
   ((C10_poisoned_currentlyComputing demoEnv).2.2 9 ccPoisonedDB [Term.fn 0]
      [Term.str "base"] (by decide)).2⟩

/-- C6 (amended): for every database state σ and expression e that is
cached or has a function head, if get(e) returns a value v then an
immediately following get(e) returns the same v and leaves the state
exactly as after the first get (the second read performs no mutation). -/
theorem C6_idempotent_read (env : Env) (fuel : Nat) (σ σ₁ : DB) (e : Expr) (v : Term)
    (h : getResultFromImmExpr env fuel σ e = (.ok v, σ₁))
    (hcond : (alGet σ.exprToCachedResult e).isSome = true ∨
      ∃ f, e.head? = some (Term.fn f)) :
    getResultFromImmExpr env fuel σ₁ e = (.ok v, σ₁) := by
  cases fuel with
  | zero => exact absurd h (by simp [getResultFromImmExpr])
  | succ n =>
      cases hc : alGet σ.exprToCachedResult e with
      | some v₀ =>
          have h0 := getResultFromImmExpr_cached env n σ e v₀ hc
          rw [h0] at h
          simp only [Prod.mk.injEq] at h
          obtain ⟨hv, hσ⟩ := h
          injection hv with hv
          subst hσ
          subst hv
          exact h0
      | none =>
          rcases hcond with hsome | ⟨f, hfn⟩
          · rw [hc] at hsome
            simp at hsome
          · have hstep : getResultFromImmExpr env (n+1) σ e
                = updateExprCacheAndGetResult env n σ e := by
              simp [getResultFromImmExpr, hc, hfn]
            rw [hstep] at h
            cases n with
            | zero => exact absurd h (by simp [updateExprCacheAndGetResult])
            | succ m =>
                by_cases hcc : e ∈ σ.currentlyComputingExprs
                · have hccres : updateExprCacheAndGetResult env (m+1) σ e
                      = (.ok .undef, σ) := by
                    simp [updateExprCacheAndGetResult, hcc]
                  rw [hccres] at h
                  simp only [Prod.mk.injEq] at h
                  obtain ⟨hv, hσ⟩ := h
                  injection hv with hv
                  subst hσ
                  subst hv
                  rw [hstep, hccres]
                · simp only [updateExprCacheAndGetResult, if_neg hcc, hfn] at h
                  split at h
                  · rename_i w σ₃ heq
                    simp only [Prod.mk.injEq] at h
                    obtain ⟨hv, hσ⟩ := h
                    injection hv with hv
                    subst hσ
                    subst hv
                    refine getResultFromImmExpr_cached env (m+1) _ e w ?_
                    simp [alGet_alSet]
                  · simp at h
                  · simp at h

/-- C6 counterexample: with the throwing predicate (function 1), the
first get raises boom while the second returns undefined, so the two
gets do not yield the same value; with the derivative-id expression
c6expr (whose second creator invalidates the first creator's cached
result during the scan), both gets return normally but with different
values, undefined and then 7, and the second get mutates the cache
further. -/
theorem C6_counterexample :
    ((getResultFromImmExpr demoEnv 9 emptyDB [Term.fn 1]).1
        = .thrown (.userThrow (.str "boom")) ∧
      (getResultFromImmExpr demoEnv 9
        (getResultFromImmExpr demoEnv 9 emptyDB [Term.fn 1]).2 [Term.fn 1]).1
        = .ok .undef) ∧
    (getResultFromImmExpr demoEnv 9 c6start c6expr = (.ok .undef, c6mid) ∧
      (getResultFromImmExpr demoEnv 9 c6mid c6expr).1 = .ok (Term.int 7)) :=
  ⟨⟨by decide, by decide⟩, ⟨by decide, by decide⟩⟩

/-- A database state with one plain cached entry. -/
def cachedDemoDB : DB :=
  { emptyDB with exprToCachedResult := [([Term.str "k"], Term.int 3)] }

/-- Witness for C6 (amended): a second get of a cached expression
yields the same value and state. -/
theorem C6_idempotent_read_witness :
    getResultFromImmExpr demoEnv 5 cachedDemoDB [Term.str "k"]
      = (.ok (Term.int 3), cachedDemoDB) :=
  C6_idempotent_read demoEnv 5 cachedDemoDB cachedDemoDB [Term.str "k"] (Term.int 3)
    (by decide) (Or.inl (by decide))

/-- C3 (failing input): the cascading write [PARENT,'B'] := 'A', whose
setter writes ['CHILD','A'] := 'B' through setDerivative, returns an
affected-set holding only [PARENT,'B'] itself; the cascaded write did
happen — reading ['CHILD','A'] on the returned database yields 'B' —
yet ['CHILD','A'] is absent from the affected-set, because
setDerivative discards the affected-set of the nested write and the
cascade accumulator only ever collects nested cascading-predicate
expressions. -/
theorem C3_cascade_affected_set_omits_child :
    (withGetAffectedRels demoEnv 9 emptyDB [Term.casc 0, Term.str "B"] (Term.str "A")).1
      = .ok [[Term.casc 0, Term.str "B"]] ∧
    (getResultFromImmExpr demoEnv 9
      (withGetAffectedRels demoEnv 9 emptyDB [Term.casc 0, Term.str "B"] (Term.str "A")).2
      [Term.str "CHILD", Term.str "A"]).1 = .ok (Term.str "B") :=
  ⟨by decide, by decide⟩

/-- Whether a term is a DerivativeId. -/
def Term.isDeriv : Term → Bool
  | .deriv _ _ => true
  | _ => false

theorem derivativeTermScan_derivFree (env : Env) (σ : DB) :
    ∀ (ts : List Term), (∀ t ∈ ts, t.isDeriv = false) →
    ∀ fuel : Nat, derivativeTermScan env (fuel + ts.length + 1) σ ts = (.ok (), σ)
  | [], _, fuel => by simp [derivativeTermScan]
  | t :: rest, h, fuel => by
      have ht := h t (List.mem_cons_self t rest)
      have hrest := fun t' ht' => h t' (List.mem_cons_of_mem t ht')
      have hstep : fuel + (t :: rest).length + 1 = (fuel + rest.length + 1) + 1 := by
        simp [List.length_cons]
        omega
      rw [hstep]
      cases t <;> simp only [derivativeTermScan] <;>
        first
          | exact derivativeTermScan_derivFree env σ rest hrest fuel
          | simp [Term.isDeriv] at ht

theorem getResultFromImmExpr_tagFresh (env : Env) (σ : DB) (tg : Nat) (rest : List Term)
    (fuel : Nat)
    (hcache : alGet σ.exprToCachedResult (Term.tag tg :: rest) = none)
    (hrest : ∀ t ∈ rest, t.isDeriv = false) :
    getResultFromImmExpr env (fuel + rest.length + 3) σ (Term.tag tg :: rest)
      = (.ok Term.undef, σ) := by
  have hlen : fuel + rest.length + 3 = (fuel + (Term.tag tg :: rest).length + 1) + 1 := by
    simp [List.length_cons]
    omega
  have hall : ∀ t ∈ Term.tag tg :: rest, Term.isDeriv t = false := by
    intro t ht
    rcases List.mem_cons.mp ht with rfl | ht'
    · rfl
    · exact hrest t ht'
  rw [hlen]
  have hscan := derivativeTermScan_derivFree env σ (Term.tag tg :: rest) hall fuel
  simp only [List.length_cons] at hscan
  simp [getResultFromImmExpr, hcache, hscan]

theorem setResultGetAffectedExprs_trivialGraph (env : Env) (fuel : Nat) (σ : DB) (e : Expr)
    (v : Term) (hdep : σ.exprToDependentExprs = []) (hcon : σ.exprToContributorExprs = [])
    (hcasc : ∀ c, e.head? ≠ some (Term.casc c)) :
    setResultGetAffectedExprs env (fuel+1) σ e v
      = (.ok [e],
         { σ with exprToCachedResult := alSet (alDelete σ.exprToCachedResult e) e v }) := by
  have hbfs : getAllDependentExprsIncludingSeed σ e = [e] := by
    simp [getAllDependentExprsIncludingSeed, bfsFuel, hdep, bfsDiscover, lookupSet, alGet]
  have hinv : invalidateAffectedExprs [e] σ
      = (.ok (), { σ with exprToCachedResult := alDelete σ.exprToCachedResult e }) := by
    simp [invalidateAffectedExprs, invalidateSingleExprResult, clearExprDependencies, hcon,
      alGet, alDelete]
  simp only [setResultGetAffectedExprs, hbfs, hinv]

theorem reactorSet_trivialGraph (env : Env) (fuel : Nat) (r : Reactor) (tg : Nat)
    (rest : List Term) (v : Term)
    (hdep : r.db.exprToDependentExprs = []) (hcon : r.db.exprToContributorExprs = []) :
    Reactor.set env (fuel+1) r (Term.tag tg :: rest) v
      = (.ok (),
         { r with
           db :=
            { cascadingPredicateAffectedExprsDuringSet := none
              currentlyComputingExprs := []
              currentDeepestComputingExpr := none
              exprToCachedResult :=
                alSet (alDelete r.db.exprToCachedResult (Term.tag tg :: rest))
                  (Term.tag tg :: rest) v
              exprToContributorExprs := r.db.exprToContributorExprs
              exprToDependentExprs := r.db.exprToDependentExprs
              calls := r.db.calls },
           invalidatedExprsPendingSubscriberNotifications :=
             sAdd (Term.tag tg :: rest)
               r.invalidatedExprsPendingSubscriberNotifications }) := by
  have hsr := setResultGetAffectedExprs_trivialGraph env fuel
    { cascadingPredicateAffectedExprsDuringSet := none
      currentlyComputingExprs := []
      currentDeepestComputingExpr := none
      exprToCachedResult := r.db.exprToCachedResult
      exprToContributorExprs := r.db.exprToContributorExprs
      exprToDependentExprs := r.db.exprToDependentExprs
      calls := r.db.calls }
    (Term.tag tg :: rest) v hdep hcon (fun c h => by simp at h)
  simp only [Reactor.set, withGetAffectedRels, applyChangeFunc, hsr,
    List.foldl_cons, List.foldl_nil]

/-! ### C7: ensureAsyncRun -/

/-- Second and later calls: when the status cell is cached as Executing and
the promise cell holds the stored future, ensureAsyncRun returns the stored
future and changes nothing. -/
theorem ensureAsyncRun_cachedHit (env : Env) (g : Nat) (r : Reactor) (f : Nat)
    (args : List Term) (w : Term)
    (hst : alGet r.db.exprToCachedResult
      (ASYNC_CALL_STATUS_INTERNAL_PRED :: Term.fn f :: args) = some AsyncCallStatus.Executing)
    (hpr : alGet r.db.exprToCachedResult
      (ASYNC_CALL_PROMISE_INTERNAL_PRED :: Term.fn f :: args) = some w) :
    Reactor.ensureAsyncRun env (g + 1) r f args = (.ok w, r) := by
  have hr1 := getResultFromImmExpr_cached env g r.db
    (ASYNC_CALL_STATUS_INTERNAL_PRED :: Term.fn f :: args) AsyncCallStatus.Executing hst
  have hr2 := getResultFromImmExpr_cached env g r.db
    (ASYNC_CALL_PROMISE_INTERNAL_PRED :: Term.fn f :: args) w hpr
  simp [Reactor.ensureAsyncRun, hr1, hr2, AsyncCallStatus.Executing]

/-- Frame facts of a successful run of the dependency-clearing loop: every
dependents set can only shrink and the cache is untouched. -/
theorem clearExprDependenciesLoop_frame (e : Expr) :
    ∀ (cs : List Expr) (σ σ' : DB),
      clearExprDependenciesLoop e cs σ = (.ok (), σ') →
      (∀ x y, y ∈ lookupSet σ'.exprToDependentExprs x →
        y ∈ lookupSet σ.exprToDependentExprs x) ∧
      σ'.exprToCachedResult = σ.exprToCachedResult := by
  intro cs
  induction cs with
  | nil =>
      intro σ σ' h
      injection h with _ h2
      subst h2
      exact ⟨fun x y hy => hy, rfl⟩
  | cons c rest ih =>
      intro σ σ' h
      rw [clearExprDependenciesLoop] at h
      cases hck : alGet σ.exprToDependentExprs c with
      | none => rw [hck] at h; cases h
      | some dk =>
          rw [hck] at h
          obtain ⟨hshrink, hcache⟩ := ih _ _ h
          constructor
          · intro x y hy
            have := hshrink x y hy
            simp only [lookupSet_alSet] at this
            by_cases hx : x = c
            · subst hx
              rw [if_pos rfl] at this
              have := sDel_mem.mp this
              simp [lookupSet, hck]
              exact this.1
            · rwa [if_neg hx] at this
          · exact hcache

/-- Frame facts of a successful clearExprDependencies: dependents sets
shrink, cache untouched. -/
theorem clearExprDependencies_frame (σ σ' : DB) (e : Expr)
    (h : clearExprDependencies σ e = (.ok (), σ')) :
    (∀ x y, y ∈ lookupSet σ'.exprToDependentExprs x →
      y ∈ lookupSet σ.exprToDependentExprs x) ∧
    σ'.exprToCachedResult = σ.exprToCachedResult := by
  unfold clearExprDependencies at h
  cases hck : alGet σ.exprToContributorExprs e with
  | none =>
      rw [hck] at h
      injection h with _ h2
      subst h2
      exact ⟨fun x y hy => hy, rfl⟩
  | some cs =>
      rw [hck] at h
      simp only [] at h
      have hres := clearExprDependenciesLoop_frame e cs _ _ h
      exact hres

/-- Frame facts of a successful invalidateSingleExprResult: dependents
sets shrink and only the invalidated expression loses its cache entry. -/
theorem invalidateSingleExprResult_frame (σ σ' : DB) (e : Expr)
    (h : invalidateSingleExprResult σ e = (.ok (), σ')) :
    (∀ x y, y ∈ lookupSet σ'.exprToDependentExprs x →
      y ∈ lookupSet σ.exprToDependentExprs x) ∧
    (∀ x, x ≠ e → alGet σ'.exprToCachedResult x = alGet σ.exprToCachedResult x) := by
  unfold invalidateSingleExprResult at h
  obtain ⟨hshrink, hcache⟩ := clearExprDependencies_frame _ _ _ h
  refine ⟨hshrink, ?_⟩
  intro x hx
  rw [hcache]
  simp only [alGet_alDelete, if_neg hx]

/-- Frame facts of a successful invalidation pass: dependents sets shrink
and cache entries of expressions outside the affected list survive. -/
theorem invalidateAffectedExprs_frame :
    ∀ (es : List Expr) (σ σ' : DB),
      invalidateAffectedExprs es σ = (.ok (), σ') →
      (∀ x y, y ∈ lookupSet σ'.exprToDependentExprs x →
        y ∈ lookupSet σ.exprToDependentExprs x) ∧
      (∀ x, x ∉ es → alGet σ'.exprToCachedResult x = alGet σ.exprToCachedResult x) := by
  intro es
  induction es with
  | nil =>
      intro σ σ' h
      injection h with _ h2
      subst h2
      exact ⟨fun x y hy => hy, fun x _ => rfl⟩
  | cons e rest ih =>
      intro σ σ' h
      rw [invalidateAffectedExprs] at h
      cases hrun : invalidateSingleExprResult σ e with
      | mk res σ₁ =>
          rw [hrun] at h
          cases res with
          | ok u =>
              obtain ⟨hs1, hc1⟩ := invalidateSingleExprResult_frame σ σ₁ e hrun
              obtain ⟨hs2, hc2⟩ := ih σ₁ σ' h
              refine ⟨fun x y hy => hs1 x y (hs2 x y hy), ?_⟩
              intro x hx
              rw [hc2 x (fun hmem => hx (List.mem_cons_of_mem e hmem)),
                hc1 x (fun hxe => hx (hxe ▸ List.mem_cons_self e rest))]
          | thrown err => cases h
          | timeout => cases h

/-- Every expression the discovery fold adds was in the accumulator or in
the processed dependents list. -/
theorem bfsStep_mem (l : List Expr) :
    ∀ (acc : List Expr × List Expr) (x : Expr),
      x ∈ (l.foldl
        (fun (acc : List Expr × List Expr) dependentExpr =>
          if dependentExpr ∈ acc.1 then acc
          else (dependentExpr :: acc.1, dependentExpr :: acc.2)) acc).1 →
      x ∈ acc.1 ∨ x ∈ l := by
  induction l with
  | nil =>
      intro acc x hx
      exact Or.inl hx
  | cons d rest ih =>
      intro acc x hx
      rw [List.foldl_cons] at hx
      rcases ih _ x hx with hx' | hx'
      · by_cases hd : d ∈ acc.1
        · rw [if_pos hd] at hx'
          exact Or.inl hx'
        · rw [if_neg hd] at hx'
          rcases List.mem_cons.mp hx' with rfl | hx''
          · exact Or.inr (List.mem_cons_self x rest)
          · exact Or.inl hx''
      · exact Or.inr (List.mem_cons_of_mem d hx')

/-- Every expression the dependent-search loop discovers was a seed or is
a member of some dependents set. -/
theorem bfsDiscover_mem (σ : DB) :
    ∀ (n : Nat) (disc queue : List Expr) (x : Expr),
      x ∈ bfsDiscover σ n disc queue →
      x ∈ disc ∨ ∃ z, x ∈ lookupSet σ.exprToDependentExprs z := by
  intro n
  induction n with
  | zero =>
      intro disc queue x hx
      exact Or.inl hx
  | succ n ih =>
      intro disc queue x hx
      rw [bfsDiscover.eq_def] at hx
      cases queue with
      | nil => exact Or.inl hx
      | cons currentExpr restQueue =>
          rcases ih _ _ x hx with hx' | hx'
          · rcases bfsStep_mem _ _ x hx' with hx'' | hx''
            · exact Or.inl hx''
            · exact Or.inr ⟨currentExpr, hx''⟩
          · exact Or.inr hx'

/-- Every affected expression is the written expression itself or is
recorded as a dependent of something. -/
theorem getAllDependentExprsIncludingSeed_mem (σ : DB) (e x : Expr)
    (hx : x ∈ getAllDependentExprsIncludingSeed σ e) :
    x = e ∨ ∃ z, x ∈ lookupSet σ.exprToDependentExprs z := by
  rcases bfsDiscover_mem σ (bfsFuel σ) [e] [e] x hx with hx' | hx'
  · exact Or.inl (List.mem_singleton.mp hx')
  · exact Or.inr hx'

/-- A set of a tag-headed expression over any database satisfying
invariant I1 succeeds and returns the discovered affected set; the
written expression's cache cell receives the value, any cell that is
neither the written expression nor recorded as a dependent of anything
keeps its cached value, I1 is preserved, the auxiliary fields are kept
and the dependents sets only shrink. -/
theorem setResultGetAffectedExprs_frame (env : Env) (fuel : Nat) (σ : DB) (e : Expr)
    (v : Term) (tg : Nat) (hinv : InvIdx σ) (hhd : e.head? = some (Term.tag tg)) :
    ∃ σ', setResultGetAffectedExprs env (fuel+1) σ e v
        = (.ok (getAllDependentExprsIncludingSeed σ e), σ') ∧
      alGet σ'.exprToCachedResult e = some v ∧
      (∀ x, x ≠ e → (∀ z, x ∉ lookupSet σ.exprToDependentExprs z) →
        alGet σ'.exprToCachedResult x = alGet σ.exprToCachedResult x) ∧
      InvIdx σ' ∧ auxFieldsEq σ σ' ∧
      (∀ x y, y ∈ lookupSet σ'.exprToDependentExprs x →
        y ∈ lookupSet σ.exprToDependentExprs x) := by
  obtain ⟨σ₁, hrun₁, hinv₁, haux₁⟩ := invalidateAffectedExprs_spec
    (getAllDependentExprsIncludingSeed σ e) σ hinv
  obtain ⟨hshrink₁, hcache₁⟩ := invalidateAffectedExprs_frame _ _ _ hrun₁
  refine ⟨{ σ₁ with exprToCachedResult := alSet σ₁.exprToCachedResult e v },
    ?_, ?_, ?_, ?_, ?_, ?_⟩
  · simp only [setResultGetAffectedExprs, hrun₁, hhd]
  · simp [alGet_alSet]
  · intro x hx hnd
    have hxaff : x ∉ getAllDependentExprsIncludingSeed σ e := by
      intro hmem
      rcases getAllDependentExprsIncludingSeed_mem σ e x hmem with rfl | ⟨z, hz⟩
      · exact hx rfl
      · exact hnd z hz
    simp only [alGet_alSet, if_neg hx]
    exact hcache₁ x hxaff
  · exact hinv₁
  · exact haux₁
  · exact hshrink₁

/-- Reactor.set of a tag-headed expression from any reactor whose
database satisfies I1: it succeeds, the written cell holds the value,
cells that are nowhere recorded as dependents keep their cached values,
I1 is preserved, the dependents sets shrink and the call log,
subscribers, async-call log and fired callbacks are unchanged. -/
theorem reactorSet_frame (env : Env) (fuel : Nat) (r : Reactor) (e : Expr) (v : Term)
    (tg : Nat) (hinv : InvIdx r.db) (hhd : e.head? = some (Term.tag tg)) :
    ∃ σ' pend, Reactor.set env (fuel+1) r e v
        = (.ok (), ⟨σ', r.subscribers, pend, r.asyncCalls, r.firedCallbacks⟩) ∧
      alGet σ'.exprToCachedResult e = some v ∧
      (∀ x, x ≠ e → (∀ z, x ∉ lookupSet r.db.exprToDependentExprs z) →
        alGet σ'.exprToCachedResult x = alGet r.db.exprToCachedResult x) ∧
      InvIdx σ' ∧
      (∀ x y, y ∈ lookupSet σ'.exprToDependentExprs x →
        y ∈ lookupSet r.db.exprToDependentExprs x) ∧
      σ'.calls = r.db.calls := by
  obtain ⟨σ', hrun, hce, hframe, hinv', haux', hshrink⟩ :=
    setResultGetAffectedExprs_frame env fuel
      ⟨none, [], none, r.db.exprToCachedResult, r.db.exprToContributorExprs,
        r.db.exprToDependentExprs, r.db.calls⟩ e v tg hinv hhd
  refine ⟨σ',
    (getAllDependentExprsIncludingSeed
      ⟨none, [], none, r.db.exprToCachedResult, r.db.exprToContributorExprs,
        r.db.exprToDependentExprs, r.db.calls⟩ e).foldl
      (fun pending x => sAdd x pending) r.invalidatedExprsPendingSubscriberNotifications,
    ?_, hce, hframe, hinv', hshrink, haux'.2.2.2⟩
  simp only [Reactor.set, withGetAffectedRels, applyChangeFunc, hrun]

/-- The resolution continuation from any reactor whose database
satisfies I1 and whose result cell is nowhere recorded as a dependent:
it writes the result cell, sets the status cell to Complete, keeps the
async-call log and flushes the pending notifications. -/
theorem ensureAsyncRunResolution_frame (env : Env) (g : Nat) (r : Reactor)
    (f : Nat) (args : List Term) (retVal : Term)
    (hinv : InvIdx r.db)
    (hresnd : ∀ z, (ASYNC_CALL_RESULT_INTERNAL_PRED :: Term.fn f :: args)
      ∉ lookupSet r.db.exprToDependentExprs z) :
    ∃ r'', Reactor.ensureAsyncRunResolution env (g + 1) r f args retVal = (.ok (), r'') ∧
      alGet r''.db.exprToCachedResult (ASYNC_CALL_RESULT_INTERNAL_PRED :: Term.fn f :: args)
        = some retVal ∧
      alGet r''.db.exprToCachedResult (ASYNC_CALL_STATUS_INTERNAL_PRED :: Term.fn f :: args)
        = some AsyncCallStatus.Complete ∧
      r''.asyncCalls = r.asyncCalls ∧
      r''.invalidatedExprsPendingSubscriberNotifications = [] := by
  obtain ⟨σ₁, p₁, hrun₁, hce₁, hframe₁, hinv₁, hshrink₁, hcalls₁⟩ :=
    reactorSet_frame env g r (ASYNC_CALL_RESULT_INTERNAL_PRED :: Term.fn f :: args)
      retVal 1 hinv rfl
  obtain ⟨σ₂, p₂, hrun₂, hce₂, hframe₂, hinv₂, hshrink₂, hcalls₂⟩ :=
    reactorSet_frame env g ⟨σ₁, r.subscribers, p₁, r.asyncCalls, r.firedCallbacks⟩
      (ASYNC_CALL_STATUS_INTERNAL_PRED :: Term.fn f :: args)
      AsyncCallStatus.Complete 0 hinv₁ rfl
  have hne : (ASYNC_CALL_RESULT_INTERNAL_PRED :: Term.fn f :: args)
      ≠ (ASYNC_CALL_STATUS_INTERNAL_PRED :: Term.fn f :: args) := by
    simp [ASYNC_CALL_RESULT_INTERNAL_PRED, ASYNC_CALL_STATUS_INTERNAL_PRED]
  have hresnd₁ : ∀ z, (ASYNC_CALL_RESULT_INTERNAL_PRED :: Term.fn f :: args)
      ∉ lookupSet σ₁.exprToDependentExprs z := by
    intro z hz
    exact hresnd z (hshrink₁ z _ hz)
  simp only [Reactor.ensureAsyncRunResolution]
  rw [hrun₁]
  simp only []
  rw [hrun₂]
  refine ⟨_, rfl, ?_, ?_, rfl, rfl⟩
  · have := (hframe₂ (ASYNC_CALL_RESULT_INTERNAL_PRED :: Term.fn f :: args)
      hne hresnd₁).trans hce₁
    exact this
  · exact hce₂

/-- The resolution continuation over a database with empty dependency
maps: it writes the result cell, sets the status cell to Complete, keeps
the async-call log, and flushes the pending notifications. -/
theorem ensureAsyncRunResolution_trivialGraph (env : Env) (g : Nat) (r : Reactor)
    (f : Nat) (args : List Term) (retVal : Term)
    (hdep : r.db.exprToDependentExprs = [])
    (hcon : r.db.exprToContributorExprs = []) :
    ∃ r'',
      Reactor.ensureAsyncRunResolution env (g + 1) r f args retVal = (.ok (), r'') ∧
      alGet r''.db.exprToCachedResult (ASYNC_CALL_RESULT_INTERNAL_PRED :: Term.fn f :: args)
        = some retVal ∧
      alGet r''.db.exprToCachedResult (ASYNC_CALL_STATUS_INTERNAL_PRED :: Term.fn f :: args)
        = some AsyncCallStatus.Complete ∧
      r''.asyncCalls = r.asyncCalls ∧
      r''.invalidatedExprsPendingSubscriberNotifications = [] := by
  have hs1 := reactorSet_trivialGraph env g r 1 (Term.fn f :: args) retVal hdep hcon
  have hs2 := reactorSet_trivialGraph env g
    ⟨⟨none, [], none,
      alSet (alDelete r.db.exprToCachedResult (Term.tag 1 :: Term.fn f :: args))
        (Term.tag 1 :: Term.fn f :: args) retVal,
      r.db.exprToContributorExprs, r.db.exprToDependentExprs, r.db.calls⟩,
     r.subscribers,
     sAdd (Term.tag 1 :: Term.fn f :: args) r.invalidatedExprsPendingSubscriberNotifications,
     r.asyncCalls, r.firedCallbacks⟩
    0 (Term.fn f :: args) AsyncCallStatus.Complete hdep hcon
  simp only [Reactor.ensureAsyncRunResolution, ASYNC_CALL_RESULT_INTERNAL_PRED,
    ASYNC_CALL_STATUS_INTERNAL_PRED]
  rw [hs1]
  simp only []
  rw [hs2]
  refine ⟨_, rfl, ?_, ?_, rfl, rfl⟩
  · simp [Reactor.flushNotifications, alGet_alSet, alGet_alDelete]
  · simp [Reactor.flushNotifications, alGet_alSet, alGet_alDelete]

/-- C7 (amended): from any reactor whose database satisfies invariant I1
and in which the status and result cells of the call are nowhere
recorded as dependents, if the status cell is uncached and the argument
list holds no DerivativeId, the first ensureAsyncRun(fn, args) writes
the status cell to Executing, invokes fn exactly once (the ghost
asyncCalls log gains exactly one entry), stores the returned future
under the promise cell and returns it; every later
ensureAsyncRun(fn, args) returns the same stored future without
invoking fn again; on resolution the result cell receives the value,
the status cell becomes Complete and the pending notifications are
flushed.  The original claim's unrestricted argument-list quantifier is
refuted by C7_counterexample. -/
theorem C7_ensureAsyncRun (env : Env) (r : Reactor) (f : Nat) (args : List Term)
    (retVal : Term) (fuel : Nat)
    (hinv : InvIdx r.db)
    (hstatus : alGet r.db.exprToCachedResult
      (ASYNC_CALL_STATUS_INTERNAL_PRED :: Term.fn f :: args) = none)
    (hargs : ∀ t ∈ args, t.isDeriv = false)
    (hstnd : ∀ z, (ASYNC_CALL_STATUS_INTERNAL_PRED :: Term.fn f :: args)
      ∉ lookupSet r.db.exprToDependentExprs z)
    (hresnd : ∀ z, (ASYNC_CALL_RESULT_INTERNAL_PRED :: Term.fn f :: args)
      ∉ lookupSet r.db.exprToDependentExprs z) :
    ∃ r', Reactor.ensureAsyncRun env (fuel + args.length + 4) r f args
        = (.ok (Term.promise f args), r') ∧
      r'.asyncCalls = r.asyncCalls ++ [(f, args)] ∧
      alGet r'.db.exprToCachedResult (ASYNC_CALL_STATUS_INTERNAL_PRED :: Term.fn f :: args)
        = some AsyncCallStatus.Executing ∧
      alGet r'.db.exprToCachedResult (ASYNC_CALL_PROMISE_INTERNAL_PRED :: Term.fn f :: args)
        = some (Term.promise f args) ∧
      (∀ g, Reactor.ensureAsyncRun env (g + 1) r' f args
        = (.ok (Term.promise f args), r')) ∧
      (∀ g, ∃ r'',
        Reactor.ensureAsyncRunResolution env (g + 1) r' f args retVal
          = (.ok (), r'') ∧
        alGet r''.db.exprToCachedResult (ASYNC_CALL_RESULT_INTERNAL_PRED :: Term.fn f :: args)
          = some retVal ∧
        alGet r''.db.exprToCachedResult (ASYNC_CALL_STATUS_INTERNAL_PRED :: Term.fn f :: args)
          = some AsyncCallStatus.Complete ∧
        r''.asyncCalls = r'.asyncCalls ∧
        r''.invalidatedExprsPendingSubscriberNotifications = []) := by
  have hfn_nd : ∀ t ∈ Term.fn f :: args, t.isDeriv = false := by
    intro t ht
    rcases List.mem_cons.mp ht with rfl | h'
    · rfl
    · exact hargs t h'
  have hread1 : getResultFromImmExpr env (fuel + args.length + 4) r.db
      (ASYNC_CALL_STATUS_INTERNAL_PRED :: Term.fn f :: args) = (.ok .undef, r.db) := by
    have h := getResultFromImmExpr_tagFresh env r.db 0 (Term.fn f :: args) fuel hstatus hfn_nd
    simp only [List.length_cons] at h
    have harith : fuel + (args.length + 1) + 3 = fuel + args.length + 4 := by omega
    rw [harith] at h
    exact h
  have harith2 : fuel + args.length + 4 = fuel + args.length + 3 + 1 := by omega
  obtain ⟨σ₂, p₂, hrun₂, hce₂, hframe₂, hinv₂, hshrink₂, hcalls₂⟩ :=
    reactorSet_frame env (fuel + args.length + 3)
      ⟨r.db, r.subscribers, r.invalidatedExprsPendingSubscriberNotifications,
        r.asyncCalls, r.firedCallbacks⟩
      (Term.tag 0 :: Term.fn f :: args) AsyncCallStatus.Executing 0 hinv rfl
  obtain ⟨σ₄, p₄, hrun₄, hce₄, hframe₄, hinv₄, hshrink₄, hcalls₄⟩ :=
    reactorSet_frame env (fuel + args.length + 3)
      ⟨σ₂, r.subscribers, p₂, r.asyncCalls ++ [(f, args)], r.firedCallbacks⟩
      (Term.tag 2 :: Term.fn f :: args) (Term.promise f args) 2 hinv₂ rfl
  have hne_sp : (ASYNC_CALL_STATUS_INTERNAL_PRED :: Term.fn f :: args)
      ≠ (ASYNC_CALL_PROMISE_INTERNAL_PRED :: Term.fn f :: args) := by
    simp [ASYNC_CALL_STATUS_INTERNAL_PRED, ASYNC_CALL_PROMISE_INTERNAL_PRED]
  have hstnd₂ : ∀ z, (ASYNC_CALL_STATUS_INTERNAL_PRED :: Term.fn f :: args)
      ∉ lookupSet σ₂.exprToDependentExprs z := by
    intro z hz
    exact hstnd z (hshrink₂ z _ hz)
  have hst₄ : alGet σ₄.exprToCachedResult
      (ASYNC_CALL_STATUS_INTERNAL_PRED :: Term.fn f :: args)
      = some AsyncCallStatus.Executing :=
    (hframe₄ _ hne_sp hstnd₂).trans hce₂
  have hresnd₄ : ∀ z, (ASYNC_CALL_RESULT_INTERNAL_PRED :: Term.fn f :: args)
      ∉ lookupSet σ₄.exprToDependentExprs z := by
    intro z hz
    exact hresnd z (hshrink₂ z _ (hshrink₄ z _ hz))
  simp only [ASYNC_CALL_STATUS_INTERNAL_PRED, ASYNC_CALL_PROMISE_INTERNAL_PRED,
    ASYNC_CALL_RESULT_INTERNAL_PRED] at hread1 hst₄ hce₄ hresnd₄ hinv₄ ⊢
  simp only [Reactor.ensureAsyncRun, ASYNC_CALL_STATUS_INTERNAL_PRED,
    ASYNC_CALL_PROMISE_INTERNAL_PRED, hread1, if_true]
  rw [harith2, hrun₂]
  simp only []
  rw [hrun₄]
  refine ⟨_, rfl, rfl, hst₄, hce₄, ?_, ?_⟩
  · intro g
    exact ensureAsyncRun_cachedHit env g
      ⟨σ₄, r.subscribers, p₄, r.asyncCalls ++ [(f, args)], r.firedCallbacks⟩
      f args (Term.promise f args) hst₄ hce₄
  · intro g
    exact ensureAsyncRunResolution_frame env g
      ⟨σ₄, r.subscribers, p₄, r.asyncCalls ++ [(f, args)], r.firedCallbacks⟩
      f args retVal hinv₄ hresnd₄

/-- Witness for C7 at a concrete call. -/
theorem C7_ensureAsyncRun_witness :
    InvIdx emptyReactor.db ∧
    alGet emptyReactor.db.exprToCachedResult
      (ASYNC_CALL_STATUS_INTERNAL_PRED :: Term.fn 7 :: [Term.str "a"]) = none ∧
    (∀ t ∈ [Term.str "a"], t.isDeriv = false) ∧
    (∃ r', Reactor.ensureAsyncRun demoEnv (0 + [Term.str "a"].length + 4)
          emptyReactor 7 [Term.str "a"]
        = (.ok (Term.promise 7 [Term.str "a"]), r') ∧
      r'.asyncCalls = emptyReactor.asyncCalls ++ [(7, [Term.str "a"])] ∧
      alGet r'.db.exprToCachedResult
        (ASYNC_CALL_STATUS_INTERNAL_PRED :: Term.fn 7 :: [Term.str "a"])
        = some AsyncCallStatus.Executing ∧
      alGet r'.db.exprToCachedResult
        (ASYNC_CALL_PROMISE_INTERNAL_PRED :: Term.fn 7 :: [Term.str "a"])
        = some (Term.promise 7 [Term.str "a"]) ∧
      (∀ g, Reactor.ensureAsyncRun demoEnv (g + 1) r' 7 [Term.str "a"]
        = (.ok (Term.promise 7 [Term.str "a"]), r')) ∧
      (∀ g, ∃ r'',
        Reactor.ensureAsyncRunResolution demoEnv (g + 1) r' 7 [Term.str "a"] (Term.str "r")
          = (.ok (), r'') ∧
        alGet r''.db.exprToCachedResult
          (ASYNC_CALL_RESULT_INTERNAL_PRED :: Term.fn 7 :: [Term.str "a"])
          = some (Term.str "r") ∧
        alGet r''.db.exprToCachedResult
          (ASYNC_CALL_STATUS_INTERNAL_PRED :: Term.fn 7 :: [Term.str "a"])
          = some AsyncCallStatus.Complete ∧
        r''.asyncCalls = r'.asyncCalls ∧
        r''.invalidatedExprsPendingSubscriberNotifications = [])) :=
  ⟨invIdx_emptyDB, rfl, by decide,
    C7_ensureAsyncRun demoEnv emptyReactor 7 [Term.str "a"] (Term.str "r") 0
      invIdx_emptyDB rfl (by decide)
      (fun z hz => by simp [emptyReactor, emptyDB, lookupSet, alGet] at hz)
      (fun z hz => by simp [emptyReactor, emptyDB, lookupSet, alGet] at hz)⟩

/-- C7 counterexample: for the argument list holding the DerivativeId
term deriv([fn 1], 0), whose creating expression's predicate throws,
the first ensureAsyncRun propagates the thrown value: the status cell is
never written, no future is stored under the promise cell and the async
function is never invoked — refuting the claim for every argument
list. -/
theorem C7_counterexample :
    (Reactor.ensureAsyncRun demoEnv 9 emptyReactor 7
        [Term.deriv [Term.fn 1] (Term.int 0)]).1
      = .thrown (.userThrow (.str "boom")) ∧
    alGet (Reactor.ensureAsyncRun demoEnv 9 emptyReactor 7
        [Term.deriv [Term.fn 1] (Term.int 0)]).2.db.exprToCachedResult
      (ASYNC_CALL_STATUS_INTERNAL_PRED :: Term.fn 7 ::
        [Term.deriv [Term.fn 1] (Term.int 0)]) = none ∧
    alGet (Reactor.ensureAsyncRun demoEnv 9 emptyReactor 7
        [Term.deriv [Term.fn 1] (Term.int 0)]).2.db.exprToCachedResult
      (ASYNC_CALL_PROMISE_INTERNAL_PRED :: Term.fn 7 ::
        [Term.deriv [Term.fn 1] (Term.int 0)]) = none ∧
    (Reactor.ensureAsyncRun demoEnv 9 emptyReactor 7
        [Term.deriv [Term.fn 1] (Term.int 0)]).2.asyncCalls = [] :=
  ⟨by decide, by decide, by decide, by decide⟩

/-! ### C8: resultIsReady -/

/-- C8: resultIsReady spies the inner expression and returns false exactly
when that raises AsyncCallIncompleteError; a successful spy and a spy
that throws any other error both yield true, and resultIsReady itself
never propagates an exception. -/
theorem C8_resultIsReady (env : Env) (fuel : Nat) (σ : DB) (e : Expr) :
    (∀ l σ', spyResult env fuel σ e = (.thrown (.asyncIncomplete l), σ') →
      resultIsReady env fuel σ e = (.ok (Term.bool false), σ')) ∧
    (∀ v σ', spyResult env fuel σ e = (.ok v, σ') →
      resultIsReady env fuel σ e = (.ok (Term.bool true), σ')) ∧
    (∀ err σ', spyResult env fuel σ e = (.thrown err, σ') →
      (∀ l, err ≠ Err.asyncIncomplete l) →
      resultIsReady env fuel σ e = (.ok (Term.bool true), σ')) ∧
    (∀ err σ', resultIsReady env fuel σ e ≠ (.thrown err, σ')) := by
  refine ⟨?_, ?_, ?_, ?_⟩
  · intro l σ' h
    simp [resultIsReady, h]
  · intro v σ' h
    simp [resultIsReady, h]
  · intro err σ' h hne
    cases err with
    | asyncIncomplete l => exact absurd rfl (hne l)
    | userThrow v => simp [resultIsReady, h]
    | getDerivativeIdOutsideComputation => simp [resultIsReady, h]
    | setDerivativeOutsideComputation => simp [resultIsReady, h]
    | typeError => simp [resultIsReady, h]
  · intro err σ'
    unfold resultIsReady
    rcases hspy : spyResult env fuel σ e with ⟨res, σ₂⟩
    cases res with
    | ok v => simp
    | thrown er => cases er <;> simp
    | timeout => simp

/-- Witness for C8: function 5 raises AsyncCallIncompleteError (false),
a plain data expression succeeds (true), and function 1 throws a
non-async error (true). -/
theorem C8_resultIsReady_witness :
    resultIsReady demoEnv 9 emptyDB [Term.fn 5]
      = (.ok (Term.bool false), (spyResult demoEnv 9 emptyDB [Term.fn 5]).2) ∧
    resultIsReady demoEnv 9 emptyDB [Term.str "base"]
      = (.ok (Term.bool true), (spyResult demoEnv 9 emptyDB [Term.str "base"]).2) ∧
    resultIsReady demoEnv 9 emptyDB [Term.fn 1]
      = (.ok (Term.bool true), (spyResult demoEnv 9 emptyDB [Term.fn 1]).2) :=
  ⟨(C8_resultIsReady demoEnv 9 emptyDB [Term.fn 5]).1 [Term.fn 9]
      (spyResult demoEnv 9 emptyDB [Term.fn 5]).2 (by rfl),
   (C8_resultIsReady demoEnv 9 emptyDB [Term.str "base"]).2.1 Term.undef
      (spyResult demoEnv 9 emptyDB [Term.str "base"]).2 (by rfl),
   (C8_resultIsReady demoEnv 9 emptyDB [Term.fn 1]).2.2.1
      (.userThrow (Term.str "boom"))
      (spyResult demoEnv 9 emptyDB [Term.fn 1]).2 (by rfl) (by simp)⟩

/-! ### C9: unsubscribe -/

/-- The expression both callbacks of the C9 scenario subscribe to. -/
def c9expr : Expr := [Term.str "x"]

/-- The reactor after callback 0 and callback 1 subscribe to c9expr. -/
def c9r2 : Reactor :=
  (Reactor.subscribe demoEnv 9
    (Reactor.subscribe demoEnv 9 emptyReactor c9expr 0).2 c9expr 1).2

/-- c9r2 after invoking the unsubscribe handle of callback 0 once. -/
def c9r3 : Reactor := (Reactor.unsubscribe c9r2 c9expr 0).2

/-- c9r3 after invoking the unsubscribe handle of callback 0 a second
time: the bucket still holding callback 1 is deleted whole. -/
def c9r4 : Reactor := (Reactor.unsubscribe c9r3 c9expr 0).2

/-- C9 (amended): a single invocation of the unsubscribe handle, while
the bucket it captured is present, removes exactly the captured callback
when the bucket holds more than one callback, and deletes the bucket
when the bucket is exactly that callback alone.  The original claim is
refuted for repeated invocations by C9_counterexample. -/
theorem C9_unsubscribe_single_invocation (r : Reactor) (e : Expr) (cb : Nat)
    (bucket : List Nat)
    (hb : alGet r.subscribers e = some bucket) :
    (bucket = [cb] →
      Reactor.unsubscribe r e cb
        = (.ok (), { r with subscribers := alDelete r.subscribers e })) ∧
    (bucket.length ≠ 1 →
      Reactor.unsubscribe r e cb
          = (.ok (), { r with subscribers := alSet r.subscribers e (sDel cb bucket) }) ∧
        cb ∉ sDel cb bucket ∧
        ∀ c ∈ bucket, c ≠ cb → c ∈ sDel cb bucket) := by
  constructor
  · intro hone
    subst hone
    simp [Reactor.unsubscribe, hb]
  · intro hne
    refine ⟨?_, ?_, ?_⟩
    · simp [Reactor.unsubscribe, hb, hne]
    · simp [sDel_mem]
    · intro c hc hcne
      exact sDel_mem.mpr ⟨hc, hcne⟩

def c9r2u : Reactor :=
  { c9r2 with subscribers := alSet c9r2.subscribers c9expr (sDel 0 [1, 0]) }

/-- Witness for the amended C9 theorem on the concrete two-subscriber
reactor. -/
theorem C9_unsubscribe_witness :
    Reactor.unsubscribe c9r2 c9expr 0 = (.ok (), c9r2u) ∧
    0 ∉ sDel 0 [1, 0] ∧
    1 ∈ sDel 0 [1, 0] := by
  have h := C9_unsubscribe_single_invocation c9r2 c9expr 0 [1, 0] (by decide)
  exact ⟨(h.2 (by decide)).1, (h.2 (by decide)).2.1,
    (h.2 (by decide)).2.2 1 (by decide) (by decide)⟩

/-- C9 counterexample: with callbacks 0 and 1 subscribed to the same
expression, invoking callback 0's unsubscribe handle twice deletes the
whole bucket, unsubscribing callback 1 as well -- the handle does not
remove exactly its own callback when invoked more than once. -/
theorem C9_counterexample :
    alGet c9r2.subscribers c9expr = some [1, 0] ∧
    alGet c9r3.subscribers c9expr = some [1] ∧
    alGet c9r4.subscribers c9expr = none := by
  decide
